import Mathlib

/-!
Verification of the LoggyLogger dashboard-client core against its
natural-language specification.

The development shallowly embeds the client-side dashboard engine:

* `ChecksManager` (`public/assets` checks module): check registry with
  compile/trial validation, per-entry memoized execution, the 25ms
  killswitch, and the inclusion filter (`add`, `update`, `remove`,
  `setEnabled`, `runCheck`, `passesFilter`, `cleanCache`, ...).
* `LogRenderer` search-filter state (`setSearchFilter`, `matchesSearch`)
  and argument formatting (`formatArgs`, `stringifyWithDepth`).
* `LoggyLoggerApp`: the log store (`_addLog`, `_trimBuffer`,
  `_clearLogs`, `_fullRender`, `_shouldShowLog`,
  `_updateChecksResultsHeader`, `_saveRecording`).

Modelling conventions:

* JavaScript `Map`/`Set` become association lists / duplicate-free lists
  kept in insertion order, which is the iteration order of the JS
  originals.
* Wall-clock measurements (`performance.now()` deltas, `Date.now()`) and
  the result of executing user-authored predicate source are inputs of
  the environment; they are passed to each operation as explicit
  arguments (`execResult`, `execTime`, `now`, ...).  A thrown user
  predicate is `execResult = false`, exactly the coercion the source
  performs in its `catch` handler.
* `runCheck` in the source receives a live reference to a check object
  stored in the registry (every caller obtains it from the registry or
  from `getEnabled`, whose cached array aliases the registry objects and
  is invalidated by `_notifyChange` on every mutation); the embedding
  therefore passes the check's id and reads/writes the registry entry.
* DOM construction, CSS, toast rendering, and the Node-side logger are
  outside the embedded core; observer notification is modelled by the
  `notifyCount` counter stepped by `_notifyChange`.
-/

namespace LoggyLogger

/-! ### Association-list helpers (JS `Map` semantics, insertion order) -/

/-- Lookup in an association list (first binding wins, as in a JS `Map`
whose keys are unique). -/
def alookup {α β : Type} [DecidableEq α] (l : List (α × β)) (k : α) : Option β :=
  (l.find? (fun p => decide (p.1 = k))).map Prod.snd

/-- JS `Map.set`: replace the binding in place if the key is present,
otherwise append the new binding at the end (insertion order). -/
def aset {α β : Type} [DecidableEq α] : List (α × β) → α → β → List (α × β)
  | [], k, v => [(k, v)]
  | (k', v') :: rest, k, v =>
    if k' = k then (k, v) :: rest else (k', v') :: aset rest k v

/-- JS `Map.delete`: remove the binding for a key. -/
def aerase {α β : Type} [DecidableEq α] (l : List (α × β)) (k : α) : List (α × β) :=
  l.filter (fun p => decide (p.1 ≠ k))

/-- Update the first element satisfying `p` (JS mutates the object found
by `find`/`findIndex`; ids are unique so at most one element matches). -/
def updateFirst {α : Type} (p : α → Bool) (f : α → α) : List α → List α
  | [] => []
  | x :: xs => if p x then f x :: xs else x :: updateFirst p f xs

/-! ### JSON-compatible values (the `argList` payload) -/

/-- JSON-compatible value carried in a log entry's `argList` /
`boundDatas`. -/
inductive JVal : Type where
  | jstr (s : String)
  | jnum (n : Int)
  | jbool (b : Bool)
  | jnull
  | jarr (items : List JVal)
  | jobj (fields : List (String × JVal))

/-- Escape for JSON string output (`JSON.stringify` on strings): quote
and backslash are escaped; other characters pass through. -/
def jsonEscapeChar (c : Char) : String :=
  if c = '"' then "\\\"" else if c = '\\' then "\\\\" else String.singleton c

/-- Body of a JSON-escaped string. -/
def jsonEscape (s : String) : String :=
  String.join (s.toList.map jsonEscapeChar)

mutual

/-- Full-depth `JSON.stringify`, compact form (used by the recording
export for non-string arguments). -/
def jsonStringify : JVal → String
  | .jstr s => "\"" ++ jsonEscape s ++ "\""
  | .jnum n => toString n
  | .jbool b => toString b
  | .jnull => "null"
  | .jarr items => "[" ++ String.intercalate "," (jsonStringifyList items) ++ "]"
  | .jobj fields => "\x7b" ++ String.intercalate "," (jsonStringifyFields fields) ++ "\x7d"

/-- `JSON.stringify` over the elements of an array. -/
def jsonStringifyList : List JVal → List String
  | [] => []
  | v :: vs => jsonStringify v :: jsonStringifyList vs

/-- `JSON.stringify` over the fields of an object. -/
def jsonStringifyFields : List (String × JVal) → List String
  | [] => []
  | (k, v) :: fs => ("\"" ++ jsonEscape k ++ "\":" ++ jsonStringify v) :: jsonStringifyFields fs

end

/-- Indentation used by `LogRenderer.stringifyWithDepth`
(`'  '.repeat n`). -/
def indentStr (n : Nat) : String :=
  String.join (List.replicate n "  ")

mutual

/-- `LogRenderer.stringifyWithDepth`: depth-limited, indented rendering
of an object/array; a `maxDepth`-level object collapses to its key list
in braces and a `maxDepth`-level array collapses to `[Array(n)]`. -/
def stringifyWithDepth (v : JVal) (maxDepth currentDepth : Nat) : String :=
  match v with
  | .jnull => "null"
  | .jstr s => "\"" ++ jsonEscape s ++ "\""
  | .jnum n => toString n
  | .jbool b => toString b
  | .jarr items =>
    if currentDepth ≥ maxDepth then "[Array(" ++ toString items.length ++ ")]"
    else if items.length = 0 then "[]"
    else
      "[\n" ++
        String.intercalate ",\n"
          ((stringifyItems items maxDepth (currentDepth + 1)).map
            (fun s => indentStr (currentDepth + 1) ++ s)) ++
        "\n" ++ indentStr currentDepth ++ "]"
  | .jobj fields =>
    if currentDepth ≥ maxDepth then
      if fields.length = 0 then "\x7b\x7d"
      else "\x7b" ++ String.intercalate ", " (fields.map Prod.fst) ++ "\x7d"
    else if fields.length = 0 then "\x7b\x7d"
    else
      "\x7b\n" ++
        String.intercalate ",\n" (stringifyFieldsDepth fields maxDepth currentDepth) ++
        "\n" ++ indentStr currentDepth ++ "\x7d"

/-- Renders each array element at the given depth. -/
def stringifyItems (items : List JVal) (maxDepth currentDepth : Nat) : List String :=
  match items with
  | [] => []
  | v :: vs => stringifyWithDepth v maxDepth currentDepth :: stringifyItems vs maxDepth currentDepth

/-- Renders each object field, `"key": value`, indented one level in. -/
def stringifyFieldsDepth (fields : List (String × JVal)) (maxDepth currentDepth : Nat) :
    List String :=
  match fields with
  | [] => []
  | (k, v) :: fs =>
    (indentStr (currentDepth + 1) ++ "\"" ++ jsonEscape k ++ "\": " ++
      stringifyWithDepth v maxDepth (currentDepth + 1)) :: stringifyFieldsDepth fs maxDepth currentDepth

end

/-- Top-level rendering of one argument (`LogRenderer.formatArgs` body):
objects/arrays go through `stringifyWithDepth`, primitives through
JS `String(...)` (strings unquoted). -/
def formatArg (a : JVal) (depth : Nat) : String :=
  match a with
  | .jarr _ => stringifyWithDepth a depth 0
  | .jobj _ => stringifyWithDepth a depth 0
  | .jstr s => s
  | .jnum n => toString n
  | .jbool b => toString b
  | .jnull => "null"

/-- `LogRenderer.formatArgs`: space-joined rendering of the argument
list; empty list renders as the empty string. -/
def formatArgs (args : List JVal) (depth : Nat) : String :=
  if args.length = 0 then ""
  else String.intercalate " " (args.map (fun a => formatArg a depth))

/-! ### Log entries and inbound wire events -/

/-- Inbound wire event (`{type, callLine?, argList, date?, boundDatas?}`),
as handed to `LoggyLoggerApp._addLog`. -/
structure LogData : Type where
  type : String
  callLine : Option String
  argList : List JVal
  date : Option String
  boundDatas : Option (List (String × JVal))

/-- One received log entry as stored by the Log Store: id assigned at
ingestion, `log-` prefix stripped from the type, date/boundDatas
defaulted. -/
structure LogEntry : Type where
  id : Nat
  type : String
  callLine : Option String
  argList : List JVal
  date : String
  boundDatas : List (String × JVal)
  isNew : Bool

/-! ### Checks Manager -/

/-- Result of one check execution (`{result, time}`). -/
structure CheckResult : Type where
  result : Bool
  time : Nat
deriving DecidableEq

/-- A user-authored check (`{id, name, code, enabled, killed, fn}`); the
compiled callable `fn` is user code whose behaviour enters the model as
the `execResult`/`execTime` arguments of `runCheck`. -/
structure Check : Type where
  id : Nat
  name : String
  code : String
  enabled : Bool
  killed : Bool
deriving DecidableEq

/-- One sample of the trailing execution-time series
(`{time, timestamp}`). -/
structure TimeSample : Type where
  time : Nat
  timestamp : Nat
deriving DecidableEq

/-- State of the `ChecksManager` singleton.  `_enabledChecksCache` is not
carried: every mutation goes through `_notifyChange`, which invalidates
it, and the cached array aliases the live check objects, so `getEnabled`
always observes the current registry; the model recomputes it.
`notifyCount` counts `_notifyChange` firings (observer notification). -/
structure ChecksManagerState : Type where
  checks : List Check
  checkIdCounter : Nat
  resultCache : List (Nat × List (Nat × CheckResult))
  executionTimes : List (Nat × List TimeSample)
  lastExecutionTimes : List (Nat × Nat)
  checksFilter : List Nat
  notifyCount : Nat
deriving DecidableEq

/-- `this._maxChecks`. -/
def maxChecks : Nat := 100

/-- `this._killswitchThreshold` (ms). -/
def killswitchThreshold : Nat := 25

/-- Initial `ChecksManager` state (the constructor). -/
def ChecksManagerState.init : ChecksManagerState :=
  ⟨[], 0, [], [], [], [], 0⟩

/-- `_notifyChange`: invalidate the enabled-checks cache (implicit here)
and fire the registered callbacks. -/
def ChecksManagerState.notifyChange (cm : ChecksManagerState) : ChecksManagerState :=
  { cm with notifyCount := cm.notifyCount + 1 }

/-- `ChecksManager.add(name, code)`.  `compileOk` is whether
`new Function(...)` succeeded, `runOk` whether the trial call returned
without throwing, `trialTime` the measured trial duration in ms. -/
def ChecksManagerState.add (cm : ChecksManagerState) (name code : String)
    (compileOk runOk : Bool) (trialTime : Nat) :
    ChecksManagerState × Option Check :=
  if cm.checks.length ≥ maxChecks then (cm, none)
  else if ¬compileOk then (cm, none)
  else if ¬runOk then (cm, none)
  else if trialTime > 10 then (cm, none)
  else
    let check : Check :=
      { id := cm.checkIdCounter + 1
        name := if name = "" then "Unnamed Check" else name
        code := code
        enabled := true
        killed := false }
    (ChecksManagerState.notifyChange
      { cm with
        checkIdCounter := cm.checkIdCounter + 1
        checks := cm.checks ++ [check]
        executionTimes := aset cm.executionTimes check.id [] },
     some check)

/-- `ChecksManager.update(id, name, code)`: re-validate, replace
name/code/fn in place, clear `killed`, and purge every cached result for
this check id. -/
def ChecksManagerState.update (cm : ChecksManagerState) (id : Nat) (name code : String)
    (compileOk runOk : Bool) (trialTime : Nat) :
    ChecksManagerState × Bool :=
  match cm.checks.find? (fun c => decide (c.id = id)) with
  | none => (cm, false)
  | some _ =>
    if ¬compileOk then (cm, false)
    else if ¬runOk then (cm, false)
    else if trialTime > 10 then (cm, false)
    else
      (ChecksManagerState.notifyChange
        { cm with
          checks := updateFirst (fun c => decide (c.id = id))
            (fun c =>
              { c with
                name := if name = "" then "Unnamed Check" else name
                code := code
                killed := false })
            cm.checks
          resultCache := cm.resultCache.map (fun p => (p.1, aerase p.2 id)) },
       true)

/-- `ChecksManager.remove(id)`: delete the check, its filter membership,
its time series, and all its cached results. -/
def ChecksManagerState.remove (cm : ChecksManagerState) (id : Nat) : ChecksManagerState :=
  if cm.checks.any (fun c => decide (c.id = id)) then
    ChecksManagerState.notifyChange
      { cm with
        checks := cm.checks.eraseP (fun c => decide (c.id = id))
        checksFilter := cm.checksFilter.eraseP (fun x => decide (x = id))
        executionTimes := aerase cm.executionTimes id
        resultCache := cm.resultCache.map (fun p => (p.1, aerase p.2 id)) }
  else cm

/-- `ChecksManager.setEnabled(id, enabled)`: set the flag; when
disabling, also drop the id from the checks filter. -/
def ChecksManagerState.setEnabled (cm : ChecksManagerState) (id : Nat) (enabled : Bool) :
    ChecksManagerState :=
  if cm.checks.any (fun c => decide (c.id = id)) then
    ChecksManagerState.notifyChange
      { cm with
        checks := updateFirst (fun c => decide (c.id = id))
          (fun c => { c with enabled := enabled }) cm.checks
        checksFilter :=
          if enabled then cm.checksFilter
          else cm.checksFilter.eraseP (fun x => decide (x = id)) }
  else cm

/-- `ChecksManager.disableAll()`. -/
def ChecksManagerState.disableAll (cm : ChecksManagerState) : ChecksManagerState :=
  ChecksManagerState.notifyChange
    { cm with
      checks := cm.checks.map (fun c => { c with enabled := false })
      checksFilter := [] }

/-- `ChecksManager.enableAll()`: killed checks stay disabled. -/
def ChecksManagerState.enableAll (cm : ChecksManagerState) : ChecksManagerState :=
  ChecksManagerState.notifyChange
    { cm with
      checks := cm.checks.map (fun c => if c.killed then c else { c with enabled := true }) }

/-- `ChecksManager.toggleFilter(id)` (JS `Set` add appends in insertion
order). -/
def ChecksManagerState.toggleFilter (cm : ChecksManagerState) (id : Nat) :
    ChecksManagerState :=
  ChecksManagerState.notifyChange
    { cm with
      checksFilter :=
        if cm.checksFilter.contains id then cm.checksFilter.eraseP (fun x => decide (x = id))
        else cm.checksFilter ++ [id] }

/-- `ChecksManager.getEnabled()` (checks where `enabled && !killed`). -/
def ChecksManagerState.getEnabled (cm : ChecksManagerState) : List Check :=
  cm.checks.filter (fun c => c.enabled && !c.killed)

/-- `ChecksManager.getById(id)`. -/
def ChecksManagerState.getById (cm : ChecksManagerState) (id : Nat) : Option Check :=
  cm.checks.find? (fun c => decide (c.id = id))

/-- Lookup of a cached result row (`_resultCache.get(logId)?.get(checkId)`). -/
def ChecksManagerState.cacheGet (cm : ChecksManagerState) (logId checkId : Nat) :
    Option CheckResult :=
  (alookup cm.resultCache logId).bind (fun lc => alookup lc checkId)

/-- Write one cached result row (ensure the per-log map exists, then
`set`). -/
def cacheSet (cache : List (Nat × List (Nat × CheckResult))) (logId checkId : Nat)
    (r : CheckResult) : List (Nat × List (Nat × CheckResult)) :=
  match alookup cache logId with
  | none => aset cache logId [(checkId, r)]
  | some lc => aset cache logId (aset lc checkId r)

/-- `ChecksManager._trackExecutionTime(id, time)`: record the last
execution time and push a `{time, timestamp}` sample, evicting samples
older than 60s. -/
def ChecksManagerState.trackExecutionTime (cm : ChecksManagerState) (id time now : Nat) :
    ChecksManagerState :=
  let times := ((alookup cm.executionTimes id).getD []) ++ [⟨time, now⟩]
  let cutoff := now - 60000
  let times := times.dropWhile (fun s => decide (s.timestamp < cutoff))
  { cm with
    lastExecutionTimes := aset cm.lastExecutionTimes id time
    executionTimes := aset cm.executionTimes id times }

/-- `ChecksManager.runCheck(check, log)`.  The caller-supplied check is
identified by `cid` (see the header note on aliasing).  `execResult` is
the boolean coercion of the user predicate's value (a thrown error is
`false`), `execTime` the measured duration in ms, `now` the `Date.now()`
reading used by the time series. -/
def ChecksManagerState.runCheck (cm : ChecksManagerState) (cid : Nat) (log : LogEntry)
    (execResult : Bool) (execTime : Nat) (now : Nat) :
    ChecksManagerState × CheckResult :=
  match cm.cacheGet log.id cid with
  | some r => (cm, r)
  | none =>
    match cm.getById cid with
    | none => (cm, ⟨false, 0⟩)
    | some check =>
      if check.killed ∨ ¬check.enabled then (cm, ⟨false, 0⟩)
      else
        let result := execResult
        let cm1 := cm.trackExecutionTime cid execTime now
        let cm2 :=
          if execTime > killswitchThreshold then
            ChecksManagerState.notifyChange
              { cm1 with
                checks := updateFirst (fun c => decide (c.id = cid))
                  (fun c => { c with killed := true, enabled := false }) cm1.checks }
          else cm1
        let cached : CheckResult := ⟨result, execTime⟩
        ({ cm2 with resultCache := cacheSet cm2.resultCache log.id cid cached }, cached)

/-- Execution oracle for one render pass: for a check id and a log id,
the boolean outcome and duration the user predicate would produce. -/
def ExecOracle : Type := Nat → Nat → Bool × Nat

/-- Loop body of `ChecksManager.passesFilter`: iterate the filter ids,
skip ids without a match in the captured enabled-checks array, and
require `result = true` from `runCheck` for the rest (short-circuit on
the first failure). -/
def passesFilterAux (log : LogEntry) (exec : ExecOracle) (now : Nat)
    (enabledIds : List Nat) :
    ChecksManagerState → List Nat → ChecksManagerState × Bool
  | cm, [] => (cm, true)
  | cm, cid :: rest =>
    if enabledIds.contains cid then
      let out := cm.runCheck cid log (exec cid log.id).1 (exec cid log.id).2 now
      if out.2.result then passesFilterAux log exec now enabledIds out.1 rest
      else (out.1, false)
    else passesFilterAux log exec now enabledIds cm rest

/-- `ChecksManager.passesFilter(log)`: empty filter admits everything;
otherwise every filter id that resolves to an enabled, non-killed check
must pass. -/
def ChecksManagerState.passesFilter (cm : ChecksManagerState) (log : LogEntry)
    (exec : ExecOracle) (now : Nat) : ChecksManagerState × Bool :=
  if cm.checksFilter.length = 0 then (cm, true)
  else passesFilterAux log exec now (cm.getEnabled.map (fun c => c.id)) cm cm.checksFilter

/-- `ChecksManager.cleanCache(validLogIds)`: drop every per-log cache
bucket whose log id is not valid. -/
def ChecksManagerState.cleanCache (cm : ChecksManagerState) (validLogIds : List Nat) :
    ChecksManagerState :=
  { cm with resultCache := cm.resultCache.filter (fun p => validLogIds.contains p.1) }

/-! ### Log renderer search-filter state -/

/-- Is the first character list a prefix of the second. -/
def charsPrefix : List Char → List Char → Bool
  | [], _ => true
  | _ :: _, [] => false
  | a :: as, b :: bs => a = b && charsPrefix as bs

/-- Does the pattern occur as a contiguous run of the haystack. -/
def charsContain : List Char → List Char → Bool
  | [], pat => charsPrefix pat []
  | h :: rest, pat => charsPrefix pat (h :: rest) || charsContain rest pat

/-- JS `String.prototype.includes`, case-sensitive (the empty pattern
always matches, as in JS). -/
def strIncludes (s pat : String) : Bool :=
  charsContain s.toList pat.toList

/-- JS `String.prototype.toLowerCase` over the code points. -/
def lowerStr (s : String) : String :=
  String.mk (s.toList.map Char.toLower)

/-- JS `String.prototype.toUpperCase` over the code points. -/
def upperStr (s : String) : String :=
  String.mk (s.toList.map Char.toUpper)

/-- Search-relevant state of the `LogRenderer` singleton.  `searchRegex`
holds the successfully-compiled pattern text, `none` when absent or when
`new RegExp` threw. -/
structure RendererState : Type where
  searchFilter : String
  isRegexMode : Bool
  searchRegex : Option String
  objectDepth : Nat

/-- Initial renderer search state (`_searchFilter = ''`,
`_objectDepth = 2`). -/
def RendererState.init : RendererState :=
  ⟨"", false, none, 2⟩

/-- `LogRenderer.setSearchFilter(filter, isRegex)`.  `valid` is whether
`new RegExp(filter, 'gi')` compiles; on failure the caught exception
leaves `searchRegex` as `none`. -/
def RendererState.setSearchFilter (rs : RendererState) (filter : String)
    (isRegex valid : Bool) : RendererState :=
  { rs with
    searchFilter := filter
    isRegexMode := isRegex
    searchRegex := if isRegex ∧ filter ≠ "" ∧ valid then some filter else none }

/-- `LogRenderer.matchesSearch(text)`: empty filter matches everything;
with regex mode and a compiled regex, test the regex (`regexTest` is the
engine); otherwise a case-insensitive literal substring test. -/
def RendererState.matchesSearch (rs : RendererState)
    (regexTest : String → String → Bool) (text : String) : Bool :=
  if rs.searchFilter = "" then true
  else
    match rs.isRegexMode, rs.searchRegex with
    | true, some pat => regexTest pat text
    | _, _ => strIncludes (lowerStr text) (lowerStr rs.searchFilter)

/-! ### Call-line parsing (`Utils`) -/

/-- Is the string a nonempty digit run (`\d+`). -/
def isDigits (s : String) : Bool :=
  decide (s ≠ "") && s.toList.all Char.isDigit

/-- Does a suffix (the text after a candidate split colon) match
`(\d+)(?::\d+)?$`; returns the first digit group. -/
def suffixLine : List String → Option Nat
  | [a] => if isDigits a then a.toNat? else none
  | [a, b] => if isDigits a ∧ isDigits b then a.toNat? else none
  | _ => none

/-- Backtracking search of `^(.+?):(\d+)(?::\d+)?$`: the lazy group
makes the match split at the earliest colon whose remainder is `\d+` or
`\d+:\d+`; the prefix must be nonempty.  Works over the colon-separated
chunks of the call line. -/
def splitFileLine : List String → List String → Option (String × Nat)
  | _, [] => none
  | accRev, p :: rest =>
    let accRev1 := p :: accRev
    let pre := String.intercalate ":" accRev1.reverse
    if pre ≠ "" then
      match suffixLine rest with
      | some n => some (pre, n)
      | none => splitFileLine accRev1 rest
    else splitFileLine accRev1 rest

/-- `Utils.getFileFromCallLine`: `null` for an absent/empty call line;
the matched file part, or the whole call line when the pattern does not
match. -/
def getFileFromCallLine (callLine : Option String) : Option String :=
  match callLine with
  | none => none
  | some s =>
    if s = "" then none
    else
      match splitFileLine [] (s.splitOn ":") with
      | some (f, _) => some f
      | none => some s

/-- `Utils.getLineFromCallLine`: the first digit group of the leftmost
match of `:(\d+)(?::\d+)?$`, or `null`. -/
def getLineFromCallLine (callLine : Option String) : Option Nat :=
  match callLine with
  | none => none
  | some s =>
    if s = "" then none
    else
      match splitFileLine [] (s.splitOn ":") with
      | some (_, n) => some n
      | none => none

/-- `Utils.isLineInRanges(line, ranges)`: inside at least one inclusive
`[start, end]` range; an empty range list admits every line. -/
def isLineInRanges (line : Nat) (ranges : List (Nat × Nat)) : Bool :=
  decide (ranges.length = 0) || ranges.any (fun r => decide (r.1 ≤ line) && decide (line ≤ r.2))

/-! ### Application controller -/

/-- Recording session state (`this._recording`). -/
structure Recording : Type where
  isRecording : Bool
  recordDatas : List LogData
  startIso : String
  endIso : String

/-- Filter configuration owned by the Application Controller: enabled
level set, selected file set, per-file line ranges, and the renderer's
search state. -/
structure FilterConfig : Type where
  enabledLogLevels : List String
  selectedFiles : List String
  lineFilters : List (String × List (Nat × Nat))
  renderer : RendererState

/-- Full application state for the embedded core (log store, filter
configuration, checks manager, transport flag, recording). -/
structure AppState : Type where
  logs : List LogEntry
  logIdCounter : Nat
  bufferSize : Nat
  fc : FilterConfig
  cm : ChecksManagerState
  recording : Recording
  connected : Bool
  alerted : Bool

/-- `this.BUFFER_PRESETS`. -/
def bufferPresets : List Nat := [100, 500, 1000, 5000, 10000, 50000]

/-- Initial application state (the constructor; the dashboard starts
connected to nothing, with the default level set and buffer size). -/
def AppState.init : AppState :=
  { logs := []
    logIdCounter := 0
    bufferSize := 1000
    fc :=
      { enabledLogLevels := ["info", "success", "warn", "error", "fatal"]
        selectedFiles := []
        lineFilters := []
        renderer := RendererState.init }
    cm := ChecksManagerState.init
    recording := ⟨false, [], "", ""⟩
    connected := false
    alerted := false }

/-- Environment inputs consumed while processing one inbound event:
receipt time (ISO) for the date default, the per-check execution oracle,
the regex engine, `Date.now()`, and the measured duration of the checks
pass over the results header. -/
structure AddLogOracle : Type where
  nowIso : String
  exec : ExecOracle
  regexTest : String → String → Bool
  now : Nat
  checksTime : Nat

/-- Defaulting performed at the top of `_addLog`: absent `date` becomes
the receipt time, absent `boundDatas` becomes `{}` (the object is
mutated in place, so the recording sees the defaulted values). -/
def defaultData (d : LogData) (nowIso : String) : LogData :=
  { d with
    date := some (d.date.getD nowIso)
    boundDatas := some (d.boundDatas.getD []) }

/-- Construction of the stored entry: next id, `log-` prefix stripped
from the type, `isNew` set. -/
def mkLog (id : Nat) (d : LogData) (nowIso : String) : LogEntry :=
  let d := defaultData d nowIso
  { id := id
    type := d.type.drop 4
    callLine := d.callLine
    argList := d.argList
    date := d.date.getD nowIso
    boundDatas := d.boundDatas.getD []
    isNew := true }

/-- Head-eviction loop of `_trimBuffer`
(`while (logs.length > bufferSize) logs.shift()`), recursing on the
store: each iteration that still overflows sheds the head. -/
def trimList (cap : Nat) : List LogEntry → List LogEntry
  | [] => []
  | x :: rest => if rest.length + 1 > cap then trimList cap rest else x :: rest

/-- `LoggyLoggerApp._trimBuffer`: evict oldest entries past capacity,
then purge cache rows of evicted ids (`cleanCache` with the surviving
ids). -/
def AppState.trimBuffer (s : AppState) : AppState :=
  let logs1 := trimList s.bufferSize s.logs
  { s with
    logs := logs1
    cm := s.cm.cleanCache (logs1.map (fun l => l.id)) }

/-- Stage (3) of `_shouldShowLog`: when files are selected, the entry's
origin file must be selected and — when that file has configured line
ranges — the origin line must fall inside one of them. -/
def fileStageOk (fc : FilterConfig) (log : LogEntry) : Bool :=
  if fc.selectedFiles.length = 0 then true
  else
    match getFileFromCallLine log.callLine with
    | none => false
    | some file =>
      if ¬ (fc.selectedFiles.contains file) then false
      else
        match alookup fc.lineFilters file with
        | some ranges =>
          if ranges.length > 0 then
            match getLineFromCallLine log.callLine with
            | none => false
            | some line => isLineInRanges line ranges
          else true
        | none => true

/-- `LoggyLoggerApp._shouldShowLog(log)`: level membership, then
free-text/regex match on the rendered argument text, then file and
line-range membership, then the checks filter (which threads the checks
state through `passesFilter`). -/
def shouldShowLog (fc : FilterConfig) (cm : ChecksManagerState) (log : LogEntry)
    (exec : ExecOracle) (regexTest : String → String → Bool) (now : Nat) :
    ChecksManagerState × Bool :=
  if ¬ (fc.enabledLogLevels.contains (lowerStr log.type)) then (cm, false)
  else if ¬ (fc.renderer.matchesSearch regexTest
      (formatArgs log.argList fc.renderer.objectDepth)) then (cm, false)
  else if ¬ fileStageOk fc log then (cm, false)
  else cm.passesFilter log exec now

/-- `LogRenderer._renderCheckIcons` (the check-evaluation effect of
rendering one entry): run each captured enabled check against the
entry. -/
def renderCheckIcons (cm : ChecksManagerState) (enabledIds : List Nat) (log : LogEntry)
    (exec : ExecOracle) (now : Nat) : ChecksManagerState :=
  enabledIds.foldl
    (fun cm cid => (cm.runCheck cid log (exec cid log.id).1 (exec cid log.id).2 now).1) cm

/-- State-threaded `this._logs.filter(log => this._shouldShowLog(log))`. -/
def filterVisible (fc : FilterConfig) (exec : ExecOracle)
    (regexTest : String → String → Bool) (now : Nat) :
    ChecksManagerState → List LogEntry → ChecksManagerState × List LogEntry
  | cm, [] => (cm, [])
  | cm, l :: rest =>
    let head := shouldShowLog fc cm l exec regexTest now
    let tail := filterVisible fc exec regexTest now head.1 rest
    (tail.1, if head.2 then l :: tail.2 else tail.2)

/-- `LoggyLoggerApp._updateChecksResultsHeader`: nothing when no check
is enabled; otherwise re-filter the stored logs and run every enabled
check against every visible log (pass/fail tallies for the header
chips). -/
def updateChecksResultsHeader (fc : FilterConfig) (cm : ChecksManagerState)
    (logs : List LogEntry) (o : AddLogOracle) : ChecksManagerState :=
  let enabled := cm.getEnabled
  if enabled.length = 0 then cm
  else
    let vis := filterVisible fc o.exec o.regexTest o.now cm logs
    enabled.foldl
      (fun cm c =>
        vis.2.foldl
          (fun cm l => (cm.runCheck c.id l (o.exec c.id l.id).1 (o.exec c.id l.id).2 o.now).1)
          cm)
      vis.1

/-- Filter-test-plus-display stage of `_addLog`: run the filter
pipeline on the new entry and, when it is shown, evaluate the captured
enabled checks for its chips (`createLogEntry`).  Returns the resulting
checks state and whether the entry was shown. -/
def addLogDisplayCm (fc : FilterConfig) (cm : ChecksManagerState) (log : LogEntry)
    (o : AddLogOracle) : ChecksManagerState × Bool :=
  let shown := shouldShowLog fc cm log o.exec o.regexTest o.now
  (if shown.2 then
    renderCheckIcons shown.1 (shown.1.getEnabled.map (fun c => c.id)) log o.exec o.now
  else shown.1, shown.2)

/-- `LoggyLoggerApp._addLog(logData)`: default the payload, assign the
next id, append, trim the buffer (evicting and purging caches), test the
filter pipeline, record and render when visible, refresh the checks
header, and finally force-disconnect with an alert when the measured
checks time for this event exceeds 1000ms. -/
def AppState.addLog (s : AppState) (data : LogData) (o : AddLogOracle) : AppState :=
  let log := mkLog (s.logIdCounter + 1) data o.nowIso
  let s2 := AppState.trimBuffer
    { s with logs := s.logs ++ [log], logIdCounter := s.logIdCounter + 1 }
  let disp := addLogDisplayCm s2.fc s2.cm log o
  let rec2 :=
    if disp.2 ∧ s2.recording.isRecording then
      { s2.recording with
        recordDatas := s2.recording.recordDatas ++ [defaultData data o.nowIso] }
    else s2.recording
  let s5 : AppState :=
    { s2 with
      cm := updateChecksResultsHeader s2.fc disp.1 s2.logs o
      recording := rec2 }
  if o.checksTime > 1000 then { s5 with connected := false, alerted := true } else s5

/-- Clearing of the one-shot `isNew` flag on every re-rendered entry
(`log.isNew = false` inside `_fullRender`'s `forEach`). -/
def clearIsNew (vis : List LogEntry) (logs : List LogEntry) : List LogEntry :=
  logs.map
    (fun l => if vis.any (fun f => decide (f.id = l.id)) then { l with isNew := false } else l)

/-- `LoggyLoggerApp._fullRender`: re-filter the store, render each
visible entry (running the captured enabled checks on it) and clear its
`isNew` flag, then refresh the checks header. -/
def AppState.fullRender (s : AppState) (o : AddLogOracle) : AppState :=
  let vis := filterVisible s.fc o.exec o.regexTest o.now s.cm s.logs
  let enabledIds := vis.1.getEnabled.map (fun c => c.id)
  let cm2 := vis.2.foldl (fun cm l => renderCheckIcons cm enabledIds l o.exec o.now) vis.1
  let logs2 := clearIsNew vis.2 s.logs
  { s with
    logs := logs2
    cm := updateChecksResultsHeader s.fc cm2 logs2 o }

/-- `LoggyLoggerApp._clearLogs`: empty the store, reset the id counter
to 0, and rebuild the (now empty) view.  The checks result cache is not
touched. -/
def AppState.clearLogs (s : AppState) (o : AddLogOracle) : AppState :=
  AppState.fullRender { s with logs := [], logIdCounter := 0 } o

/-- Check-evaluation effect of `_openLogDetail` /
`LogRenderer.createDetailContent`: run every enabled check against the
inspected entry. -/
def AppState.openLogDetail (s : AppState) (log : LogEntry) (o : AddLogOracle) : AppState :=
  { s with cm := renderCheckIcons s.cm (s.cm.getEnabled.map (fun c => c.id)) log o.exec o.now }

/-- Buffer-slider handler: pick a preset capacity and immediately
re-enforce it. -/
def AppState.setBufferSize (s : AppState) (i : Fin 6) : AppState :=
  AppState.trimBuffer { s with bufferSize := bufferPresets.get ⟨i, by simp [bufferPresets]⟩ }

/-- A batch of inbound events, each with its environment inputs,
processed in arrival order. -/
def appendEvents (s : AppState) (es : List (LogData × AddLogOracle)) : AppState :=
  es.foldl (fun s e => s.addLog e.1 e.2) s

/-- The entries a batch of events turns into when ingestion starts at
the given id counter. -/
def mkLogs (startId : Nat) : List (LogData × AddLogOracle) → List LogEntry
  | [] => []
  | e :: rest => mkLog (startId + 1) e.1 e.2.nowIso :: mkLogs (startId + 1) rest

/-! ### Recording export -/

/-- Output of `_saveRecording`: download name and file content. -/
structure SavedFile : Type where
  filename : String
  content : String
deriving DecidableEq

/-- One exported line:
`` `${log.date} ${log.type.toUpperCase()} (${log.callLine}): ${args}\n` ``
with string arguments verbatim and other arguments `JSON.stringify`-ed,
space-joined. -/
def fmtRecordLine (d : LogData) : String :=
  let args := String.intercalate " "
    (d.argList.map (fun a => match a with | .jstr s => s | v => jsonStringify v))
  (d.date.getD "undefined") ++ " " ++ upperStr d.type ++ " (" ++
    (d.callLine.getD "undefined") ++ "): " ++ args ++ "\n"

/-- Stable insertion step for the date sort (an element is placed after
every element with a key not greater than its own, matching the stable
JS `Array.prototype.sort` with the `new Date(a) - new Date(b)`
comparator). -/
def insertByDate (key : Option String → Nat) (x : LogData) : List LogData → List LogData
  | [] => [x]
  | y :: ys => if key x.date < key y.date then x :: y :: ys else y :: insertByDate key x ys

/-- Date-ascending stable sort of the recorded entries. -/
def sortByDate (key : Option String → Nat) (l : List LogData) : List LogData :=
  l.foldl (fun acc x => insertByDate key x acc) []

/-- `LoggyLoggerApp._saveRecording`: sort the recorded entries by date
ascending, join the formatted lines with `'\n'`, and offer the blob
under `` `${start}_${end}_LoggyLogger_record.log` ``.  `dateKey` is the
environment's `new Date(s).getTime()`. -/
def saveRecording (rec : Recording) (dateKey : Option String → Nat) : SavedFile :=
  let sorted := sortByDate dateKey rec.recordDatas
  { filename := rec.startIso ++ "_" ++ rec.endIso ++ "_LoggyLogger_record.log"
    content := String.intercalate "\n" (sorted.map fmtRecordLine) }

/-! ### State-machine view (reachable dashboard states) -/

/-- Per-log-id keys of the result cache. -/
def cacheLogIds (cm : ChecksManagerState) : List Nat :=
  cm.resultCache.map Prod.fst

/-- Cache well-formedness: every result-cache bucket belongs to an entry
currently in the log store. -/
def cacheWF (s : AppState) : Prop :=
  ∀ p ∈ s.cm.resultCache, p.1 ∈ s.logs.map (fun l => l.id)

instance (s : AppState) : Decidable (cacheWF s) := by
  unfold cacheWF; infer_instance

/-- One event- or user-driven transition of the dashboard.  `allowClear`
gates the clear-all button.  The `detail` step may only inspect a stored
entry (its DOM element exists only while the entry is stored). -/
inductive Step : Bool → AppState → AppState → Prop where
  | receive (allowClear : Bool) (s : AppState) (d : LogData) (o : AddLogOracle) :
      Step allowClear s (s.addLog d o)
  | clearAll (s : AppState) (o : AddLogOracle) : Step true s (s.clearLogs o)
  | rebuild (allowClear : Bool) (s : AppState) (o : AddLogOracle) :
      Step allowClear s (s.fullRender o)
  | detail (allowClear : Bool) (s : AppState) (log : LogEntry) (o : AddLogOracle)
      (h : log ∈ s.logs) : Step allowClear s (s.openLogDetail log o)
  | configChange (allowClear : Bool) (s : AppState) (fc : FilterConfig) (o : AddLogOracle) :
      Step allowClear s (AppState.fullRender { s with fc := fc } o)
  | buffer (allowClear : Bool) (s : AppState) (i : Fin 6) :
      Step allowClear s (s.setBufferSize i)
  | addCheck (allowClear : Bool) (s : AppState) (name code : String) (c r : Bool) (t : Nat) :
      Step allowClear s { s with cm := (s.cm.add name code c r t).1 }
  | updateCheck (allowClear : Bool) (s : AppState) (id : Nat) (name code : String)
      (c r : Bool) (t : Nat) :
      Step allowClear s { s with cm := (s.cm.update id name code c r t).1 }
  | removeCheck (allowClear : Bool) (s : AppState) (id : Nat) :
      Step allowClear s { s with cm := s.cm.remove id }
  | toggleCheck (allowClear : Bool) (s : AppState) (id : Nat) (b : Bool) :
      Step allowClear s { s with cm := s.cm.setEnabled id b }
  | toggleChecksFilter (allowClear : Bool) (s : AppState) (id : Nat) :
      Step allowClear s { s with cm := s.cm.toggleFilter id }
  | disableAllChecks (allowClear : Bool) (s : AppState) :
      Step allowClear s { s with cm := s.cm.disableAll }
  | enableAllChecks (allowClear : Bool) (s : AppState) :
      Step allowClear s { s with cm := s.cm.enableAll }

/-- States reachable from the fresh dashboard; `Reachable true` allows
the clear-all button, `Reachable false` excludes it. -/
inductive Reachable : Bool → AppState → Prop where
  | init (allowClear : Bool) : Reachable allowClear AppState.init
  | step {allowClear : Bool} {s t : AppState} :
      Reachable allowClear s → Step allowClear s t → Reachable allowClear t

/-! ### Concrete fixtures for witnesses and counterexamples -/

/-- A sample stored log entry (id 1). -/
def sampleLog : LogEntry :=
  ⟨1, "info", some "app.ts:3", [], "2026-01-01T00:00:00Z", [], true⟩

/-- A sample inbound wire event. -/
def sampleData : LogData :=
  ⟨"log-info", some "app.ts:3", [], some "2026-01-01T00:00:00Z", none⟩

/-- A benign environment: predicates return `true` in 1ms, no regex
engine hits, zero measured header time. -/
def quietOracle : AddLogOracle :=
  ⟨"2026-01-01T00:00:00Z", fun _ _ => (true, 1), fun _ _ => false, 0, 0⟩

/-- Registry holding one check (id 1) accepted with a 0ms trial. -/
def cmOne : ChecksManagerState :=
  (ChecksManagerState.init.add "c1" "return true" true true 0).1

/-- `cmOne` after a 30ms run of check 1 on `sampleLog`: the killswitch
has fired and the run's result `{result: true, time: 30}` is cached. -/
def cmKilled : ChecksManagerState :=
  (cmOne.runCheck 1 sampleLog true 30 0).1

/-- Registry with a killed check (id 1) that is still in the checks
filter and has no cached results. -/
def cmFilterKilled : ChecksManagerState :=
  ⟨[⟨1, "c1", "return true", false, true⟩], 1, [], [(1, [])], [], [1], 0⟩

/-- Fresh dashboard after registering one always-true check. -/
def sWithCheck : AppState :=
  { AppState.init with cm := (AppState.init.cm.add "c1" "return true" true true 0).1 }

/-- `sWithCheck` after one visible event: entry 1 is stored and the
check's result for it is cached. -/
def sOneLog : AppState :=
  sWithCheck.addLog sampleData quietOracle

/-- `sOneLog` after the clear-all button: the store is empty, the id
counter reset, the result cache untouched. -/
def sCleared : AppState :=
  sOneLog.clearLogs quietOracle

/-- A two-entry recording whose entries arrive out of timestamp order. -/
def sampleRecording : Recording :=
  ⟨false,
   [⟨"log-error", some "b.ts:2", [.jstr "y"], some "2026-01-02", none⟩,
    ⟨"log-info", some "a.ts:1", [.jstr "x"], some "2026-01-01", none⟩],
   "S", "E"⟩

/-- Date parse for `sampleRecording`'s two timestamps. -/
def sampleDateKey : Option String → Nat :=
  fun d => if d = some "2026-01-01" then 1 else 2

/-- A fresh dashboard whose capacity slider is at a tiny capacity (for
exercising eviction with few events). -/
def smallBufState : AppState :=
  { AppState.init with bufferSize := 2 }

/-- Three identical benign events. -/
def threeEvents : List (LogData × AddLogOracle) :=
  List.replicate 3 (sampleData, quietOracle)

/-! ## Lemmas about the association-list helpers -/

theorem alookup_nil {α β : Type} [DecidableEq α] (k : α) :
    alookup ([] : List (α × β)) k = none := rfl

theorem alookup_cons {α β : Type} [DecidableEq α] (a : α × β) (l : List (α × β)) (k : α) :
    alookup (a :: l) k = if a.1 = k then some a.2 else alookup l k := by
  by_cases h : a.1 = k <;> simp [alookup, List.find?, h]

theorem alookup_aset_self {α β : Type} [DecidableEq α] (l : List (α × β)) (k : α) (v : β) :
    alookup (aset l k v) k = some v := by
  induction l with
  | nil => simp [aset, alookup_cons]
  | cons p rest ih =>
    by_cases h : p.1 = k
    · simp [aset, h, alookup_cons]
    · simp [aset, h, alookup_cons, ih]

theorem alookup_aset_ne {α β : Type} [DecidableEq α] (l : List (α × β)) (k k' : α) (v : β)
    (h : k' ≠ k) : alookup (aset l k v) k' = alookup l k' := by
  induction l with
  | nil => simp [aset, alookup_cons, alookup_nil, Ne.symm h]
  | cons p rest ih =>
    by_cases hp : p.1 = k
    · simp [aset, hp, alookup_cons, Ne.symm h]
    · simp [aset, hp, alookup_cons, ih]

theorem cacheSet_get_self (cache : List (Nat × List (Nat × CheckResult))) (lid cid : Nat)
    (r : CheckResult) :
    (alookup (cacheSet cache lid cid r) lid).bind (fun lc => alookup lc cid) = some r := by
  unfold cacheSet
  cases h : alookup cache lid with
  | none =>
    rw [alookup_aset_self]
    simp [alookup_cons]
  | some lc =>
    rw [alookup_aset_self]
    simp [alookup_aset_self]

theorem cacheSet_get_ne (cache : List (Nat × List (Nat × CheckResult))) (lid cid lid' cid' : Nat)
    (r : CheckResult) (h : ¬(lid' = lid ∧ cid' = cid)) :
    (alookup (cacheSet cache lid cid r) lid').bind (fun lc => alookup lc cid') =
      (alookup cache lid').bind (fun lc => alookup lc cid') := by
  unfold cacheSet
  by_cases hl : lid' = lid
  · subst hl
    have hc : cid' ≠ cid := fun hc => h ⟨rfl, hc⟩
    cases hcache : alookup cache lid' with
    | none =>
      dsimp only
      rw [alookup_aset_self]
      simp [alookup_cons, alookup_nil, Ne.symm hc]
    | some lc =>
      dsimp only
      rw [alookup_aset_self]
      simp [alookup_aset_ne lc cid cid' r hc]
  · cases hcache : alookup cache lid with
    | none =>
      dsimp only
      rw [alookup_aset_ne _ _ _ _ hl]
    | some lc =>
      dsimp only
      rw [alookup_aset_ne _ _ _ _ hl]

/-! ## Lemmas about `updateFirst` -/

theorem updateFirst_length {α : Type} (p : α → Bool) (f : α → α) (l : List α) :
    (updateFirst p f l).length = l.length := by
  induction l with
  | nil => rfl
  | cons x xs ih => by_cases h : p x <;> simp [updateFirst, h, ih]

theorem find?_updateFirst {α : Type} (p : α → Bool) (f : α → α)
    (hf : ∀ a, p a = true → p (f a) = true) (l : List α) :
    (updateFirst p f l).find? p = (l.find? p).map f := by
  induction l with
  | nil => rfl
  | cons x xs ih =>
    by_cases h : p x
    · simp [updateFirst, h, List.find?, hf x h]
    · simpa [updateFirst, h, List.find?] using ih

theorem getElem?_updateFirst_of_neg {α : Type} (p : α → Bool) (f : α → α) (l : List α) (i : Nat)
    (c : α) (hc : l[i]? = some c) (hp : p c = false) :
    (updateFirst p f l)[i]? = some c := by
  induction l generalizing i with
  | nil => simp at hc
  | cons x xs ih =>
    cases i with
    | zero =>
      simp at hc
      subst hc
      simp [updateFirst, hp]
    | succ i =>
      simp at hc
      by_cases h : p x
      · simpa [updateFirst, h] using hc
      · simpa [updateFirst, h] using ih i hc

theorem not_mem_eraseP_self {l : List Nat} (hnd : l.Nodup) (id : Nat) :
    id ∉ l.eraseP (fun x => decide (x = id)) := by
  induction l with
  | nil => simp
  | cons x xs ih =>
    rcases List.nodup_cons.mp hnd with ⟨hx, hxs⟩
    by_cases h : x = id
    · subst h
      simpa [List.eraseP_cons] using hx
    · intro hmem
      rw [List.eraseP_cons] at hmem
      simp [h] at hmem
      rcases hmem with h' | hmem
      · exact h h'.symm
      · exact ih hxs hmem

/-! ## C7: slow trial executions are rejected by `add` -/

/-- C7 (counterexample): a trial execution of exactly 10ms — which the
claim's "takes at least 10ms" covers — is accepted by `add`: a check is
returned and the registry grows from 0 to 1 entries, contradicting
"rejected and the registry is left unchanged". -/
theorem C7_counterexample :
    (10 : Nat) ≥ 10 ∧
    ((ChecksManagerState.init.add "n" "c" true true 10).2).isSome = true ∧
    (ChecksManagerState.init.add "n" "c" true true 10).1.checks.length = 1 ∧
    (ChecksManagerState.init.add "n" "c" true true 10).1.checkIdCounter = 1 := by
  decide

/-- C7 (amended): for every name and source whose trial execution takes
strictly more than 10ms, `add` is rejected (returns no check) and the
whole manager state — registry contents, registry size, and the check id
counter — is left unchanged; a trial of exactly 10ms is accepted. -/
theorem C7_slow_trial_rejected (cm : ChecksManagerState) (name code : String)
    (compileOk runOk : Bool) (t : Nat) (h : t > 10) :
    cm.add name code compileOk runOk t = (cm, none) := by
  simp [ChecksManagerState.add, h]

/-- C7 (witness): the amended theorem applied at an 11ms trial on the
fresh registry. -/
theorem C7_slow_trial_rejected_witness :
    ChecksManagerState.init.add "n" "c" true true 11 = (ChecksManagerState.init, none) :=
  C7_slow_trial_rejected ChecksManagerState.init "n" "c" true true 11 (by decide)

/-! ## C6: invalid regex in regex mode -/

/-- C6 (counterexample): with regex mode on and the invalid pattern
`"("`, `matchesSearch` on the rendered argument text `"abc("` returns
`true`, not `false`: the code falls back to a literal substring test
instead of failing closed. -/
theorem C6_counterexample :
    (RendererState.init.setSearchFilter "(" true false).matchesSearch
      (fun _ _ => false) (formatArgs [.jstr "abc("] 2) = true := by
  decide

/-- C6 (amended): when regex mode is active and the search pattern does
not compile, the compiled regex is discarded and stage (2) degrades to a
case-insensitive literal substring test of the pattern against the
entry's rendered argument text — the regex engine is never consulted, so
no exception escapes into the render path; entries whose rendered text
contains the pattern literally still match. -/
theorem C6_invalid_regex_fallback (rs : RendererState) (pat : String)
    (regexTest : String → String → Bool) (args : List JVal) (d : Nat) (h : pat ≠ "") :
    ((rs.setSearchFilter pat true false).searchRegex = none) ∧
    ((rs.setSearchFilter pat true false).matchesSearch regexTest (formatArgs args d) =
      strIncludes (lowerStr (formatArgs args d)) (lowerStr pat)) := by
  constructor
  · simp [RendererState.setSearchFilter]
  · simp [RendererState.setSearchFilter, RendererState.matchesSearch, h]

/-- C6 (witness): the amended theorem applied to the invalid pattern
`"("` and a concrete entry text. -/
theorem C6_invalid_regex_fallback_witness :
    ((RendererState.init.setSearchFilter "(" true false).searchRegex = none) ∧
    ((RendererState.init.setSearchFilter "(" true false).matchesSearch
        (fun _ _ => true) (formatArgs [.jstr "warn 2"] 2) =
      strIncludes (lowerStr (formatArgs [.jstr "warn 2"] 2)) (lowerStr "(")) :=
  C6_invalid_regex_fallback RendererState.init "(" (fun _ _ => true) [.jstr "warn 2"] 2
    (by decide)

/-! ## C10: disabling a check removes it from the filter set -/

/-- C10: for an existing check id, `setEnabled(id, false)` stores
`enabled = false` on that check and removes the id from the
required-check filter set; `setEnabled(id, true)` stores
`enabled = true` and leaves the filter set exactly as it was (the id is
not re-added).  The filter set is a JS `Set`, hence duplicate-free. -/
theorem C10_setEnabled_filter (cm : ChecksManagerState) (id : Nat) (c : Check)
    (h : cm.getById id = some c) (hnd : cm.checksFilter.Nodup) :
    (cm.setEnabled id false).getById id = some { c with enabled := false } ∧
    id ∉ (cm.setEnabled id false).checksFilter ∧
    (cm.setEnabled id true).getById id = some { c with enabled := true } ∧
    (cm.setEnabled id true).checksFilter = cm.checksFilter := by
  have h' : cm.checks.find? (fun c => decide (c.id = id)) = some c := h
  have hp := List.find?_some h'
  have hany : cm.checks.any (fun c => decide (c.id = id)) = true :=
    List.any_eq_true.mpr ⟨c, List.mem_of_find?_eq_some h', hp⟩
  have hf : ∀ (b : Bool) (a : Check),
      (fun c => decide (c.id = id)) a = true →
      (fun c => decide (c.id = id)) ({ a with enabled := b }) = true := by
    intro b a ha
    simpa using ha
  refine ⟨?_, ?_, ?_, ?_⟩
  · show (cm.setEnabled id false).checks.find? (fun c => decide (c.id = id)) = _
    unfold ChecksManagerState.setEnabled
    rw [if_pos hany]
    show (updateFirst _ _ cm.checks).find? _ = _
    rw [find?_updateFirst _ _ (hf false), h']
    rfl
  · unfold ChecksManagerState.setEnabled
    rw [if_pos hany]
    show id ∉ (if (false : Bool) = true then cm.checksFilter else _)
    simp only [if_neg (by decide : ¬((false : Bool) = true))]
    exact not_mem_eraseP_self hnd id
  · show (cm.setEnabled id true).checks.find? (fun c => decide (c.id = id)) = _
    unfold ChecksManagerState.setEnabled
    rw [if_pos hany]
    show (updateFirst _ _ cm.checks).find? _ = _
    rw [find?_updateFirst _ _ (hf true), h']
    rfl
  · unfold ChecksManagerState.setEnabled
    rw [if_pos hany]
    rfl

/-- C10 (witness): the theorem applied to the one-check registry
`cmOne` and its check id 1. -/
theorem C10_setEnabled_filter_witness :
    (cmOne.setEnabled 1 false).getById 1 =
      some { id := 1, name := "c1", code := "return true", enabled := false, killed := false } ∧
    1 ∉ (cmOne.setEnabled 1 false).checksFilter ∧
    (cmOne.setEnabled 1 true).getById 1 =
      some { id := 1, name := "c1", code := "return true", enabled := true, killed := false } ∧
    (cmOne.setEnabled 1 true).checksFilter = cmOne.checksFilter :=
  C10_setEnabled_filter cmOne 1
    { id := 1, name := "c1", code := "return true", enabled := true, killed := false }
    (by decide) (by decide)

/-! ## C4: killed checks never re-execute -/

/-- C4 (counterexample): after check 1 is killed by a 30ms run on entry
1 (which cached that run's `{result: true, time: 30}`), `runCheck` on
the same killed check and entry returns the cached `{passed: true,
evalMillis: 30}`, not `{passed: false, evalMillis: 0}` — the cache is
authoritative even for killed checks, contradicting the claim's "for
every log entry". -/
theorem C4_counterexample :
    (cmKilled.getById 1).map Check.killed = some true ∧
    (cmKilled.runCheck 1 sampleLog false 0 0).2 = ⟨true, 30⟩ ∧
    ¬((cmKilled.runCheck 1 sampleLog false 0 0).2 = ⟨false, 0⟩) := by
  decide

/-- C4 (amended): for every check with `killed = true` and every log
entry with no cached result for `(entry.id, check.id)`, `runCheck`
returns `{passed: false, evalMillis: 0}` and does not execute the
check's compiled source — the state is unchanged (nothing is cached) and
the result is independent of the execution oracle — regardless of the
stored `enabled` flag; when a cached row exists it is returned
unconditionally instead. -/
theorem C4_killed_check_inert (cm : ChecksManagerState) (cid : Nat) (log : LogEntry)
    (check : Check) (execResult : Bool) (execTime now : Nat)
    (hmiss : cm.cacheGet log.id cid = none)
    (hfind : cm.getById cid = some check) (hk : check.killed = true) :
    cm.runCheck cid log execResult execTime now = (cm, ⟨false, 0⟩) := by
  simp [ChecksManagerState.runCheck, hmiss, hfind, hk]

/-- C4 (witness): the amended theorem applied to a killed check with an
empty cache, with a would-be result `{true, 30}` from the oracle. -/
theorem C4_killed_check_inert_witness :
    cmFilterKilled.runCheck 1 sampleLog true 30 0 = (cmFilterKilled, ⟨false, 0⟩) :=
  C4_killed_check_inert cmFilterKilled 1 sampleLog
    { id := 1, name := "c1", code := "return true", enabled := false, killed := true }
    true 30 0 (by decide) (by decide) (by decide)

/-! ## C8: aggregate-overload circuit breaker -/

/-- C8: for every single incoming log event, the transport channel ends
up disconnected with a blocking alert exactly when the measured checks
time for that event exceeds 1000ms; at or under the budget, this
mechanism leaves the connected flag and the alert state as they were. -/
theorem C8_overload_breaker (s : AppState) (d : LogData) (o : AddLogOracle) :
    (s.addLog d o).connected = (if 1000 < o.checksTime then false else s.connected) ∧
    (s.addLog d o).alerted = (if 1000 < o.checksTime then true else s.alerted) := by
  by_cases h : 1000 < o.checksTime <;>
    simp [AppState.addLog, h, AppState.trimBuffer,
      apply_ite AppState.connected, apply_ite AppState.alerted]

/-! ## C1: the 25ms killswitch -/

/-- C1: whenever `runCheck` actually executes a check's compiled
predicate (cache miss, not killed, enabled) and the measured time
exceeds the 25ms threshold, it (a) returns that execution's result,
(b) caches it, (c) sets `killed = true` and `enabled = false` on that
check, (d) notifies observers, (e) leaves every other check unchanged
(same registry length, same entries at every other position), and the
kill is sticky: (f) `setEnabled(id, true)` leaves `killed = true`, while
(g) a successful `update` (valid compile/trial within 10ms) clears it. -/
theorem C1_killswitch (cm : ChecksManagerState) (cid : Nat) (log : LogEntry)
    (check : Check) (execResult : Bool) (t now : Nat)
    (hmiss : cm.cacheGet log.id cid = none)
    (hfind : cm.getById cid = some check)
    (hk : check.killed = false) (he : check.enabled = true)
    (ht : killswitchThreshold < t) :
    (cm.runCheck cid log execResult t now).2 = ⟨execResult, t⟩ ∧
    (cm.runCheck cid log execResult t now).1.cacheGet log.id cid = some ⟨execResult, t⟩ ∧
    (cm.runCheck cid log execResult t now).1.getById cid =
      some { check with killed := true, enabled := false } ∧
    (cm.runCheck cid log execResult t now).1.notifyCount = cm.notifyCount + 1 ∧
    (cm.runCheck cid log execResult t now).1.checks.length = cm.checks.length ∧
    (∀ (i : Nat) (c : Check), cm.checks[i]? = some c → c.id ≠ cid →
      ((cm.runCheck cid log execResult t now).1.checks)[i]? = some c) ∧
    (((cm.runCheck cid log execResult t now).1.setEnabled cid true).getById cid).map
      Check.killed = some true ∧
    (∀ (nm cd : String) (t2 : Nat), t2 ≤ 10 →
      ((((cm.runCheck cid log execResult t now).1.update cid nm cd true true t2).1).getById
          cid).map Check.killed = some false) := by
  have hfind' : cm.checks.find? (fun c => decide (c.id = cid)) = some check := hfind
  have hkill : ∀ a : Check, (fun c => decide (c.id = cid)) a = true →
      (fun c => decide (c.id = cid)) ({ a with killed := true, enabled := false }) = true := by
    intro a ha; simpa using ha
  have hrun : cm.runCheck cid log execResult t now =
      ({ checks := updateFirst (fun c => decide (c.id = cid))
            (fun c => { c with killed := true, enabled := false }) cm.checks
         checkIdCounter := cm.checkIdCounter
         resultCache := cacheSet cm.resultCache log.id cid ⟨execResult, t⟩
         executionTimes := (cm.trackExecutionTime cid t now).executionTimes
         lastExecutionTimes := (cm.trackExecutionTime cid t now).lastExecutionTimes
         checksFilter := cm.checksFilter
         notifyCount := cm.notifyCount + 1 },
       ⟨execResult, t⟩) := by
    simp [ChecksManagerState.runCheck, hmiss, hfind, hk, he, ht,
      ChecksManagerState.notifyChange, ChecksManagerState.trackExecutionTime]
  rw [hrun]
  have hfound : (updateFirst (fun c => decide (c.id = cid))
      (fun c => { c with killed := true, enabled := false }) cm.checks).find?
        (fun c => decide (c.id = cid)) =
      some { check with killed := true, enabled := false } := by
    rw [find?_updateFirst _ _ hkill, hfind']; rfl
  refine ⟨rfl, ?_, ?_, rfl, ?_, ?_, ?_, ?_⟩
  · exact cacheSet_get_self cm.resultCache log.id cid ⟨execResult, t⟩
  · exact hfound
  · exact updateFirst_length _ _ cm.checks
  · intro i c hc hne
    exact getElem?_updateFirst_of_neg _ _ cm.checks i c hc (by simpa using hne)
  · have hany : (updateFirst (fun c => decide (c.id = cid))
        (fun c => { c with killed := true, enabled := false }) cm.checks).any
          (fun c => decide (c.id = cid)) = true := by
      have hmem := List.mem_of_find?_eq_some hfound
      have hpred := List.find?_some hfound
      exact List.any_eq_true.mpr ⟨_, hmem, hpred⟩
    show ((ChecksManagerState.setEnabled _ cid true).checks.find?
        (fun c => decide (c.id = cid))).map Check.killed = some true
    unfold ChecksManagerState.setEnabled
    rw [if_pos hany]
    show ((updateFirst _ _ _).find? _).map Check.killed = _
    rw [find?_updateFirst _ _ (fun a ha => by simpa using ha), hfound]
    rfl
  · intro nm cd t2 ht2
    show ((ChecksManagerState.update _ cid nm cd true true t2).1.checks.find?
        (fun c => decide (c.id = cid))).map Check.killed = some false
    unfold ChecksManagerState.update
    rw [hfound]
    simp only [Bool.not_true, if_neg (by omega : ¬ t2 > 10)]
    show ((updateFirst _ _ _).find? _).map Check.killed = _
    rw [find?_updateFirst _ _ (fun a ha => by simpa using ha), hfound]
    rfl

/-- C1 (witness): the theorem applied to the one-check registry, a 30ms
execution returning `true` on entry 1: the result `{true, 30}` is
returned and cached, check 1 ends killed and disabled, and one observer
notification fires. -/
theorem C1_killswitch_witness :
    (cmOne.runCheck 1 sampleLog true 30 0).2 = ⟨true, 30⟩ ∧
    (cmOne.runCheck 1 sampleLog true 30 0).1.cacheGet sampleLog.id 1 = some ⟨true, 30⟩ ∧
    (cmOne.runCheck 1 sampleLog true 30 0).1.getById 1 =
      some { id := 1, name := "c1", code := "return true", enabled := false, killed := true } ∧
    (cmOne.runCheck 1 sampleLog true 30 0).1.notifyCount = cmOne.notifyCount + 1 :=
  have H := C1_killswitch cmOne 1 sampleLog
    { id := 1, name := "c1", code := "return true", enabled := true, killed := false }
    true 30 0 (by decide) (by decide) (by decide) (by decide) (by decide)
  ⟨H.1, H.2.1, H.2.2.1, H.2.2.2.1⟩

/-! ## C5: the check-filter stage of shouldDisplay -/

/-- A cached row survives any `runCheck` call: cache hits write nothing,
and an executing call writes only its own `(log.id, cid)` row, which was
previously absent. -/
theorem runCheck_cache_persist (cm : ChecksManagerState) (cid' : Nat) (log : LogEntry)
    (res : Bool) (t now : Nat) (lid cid : Nat) (r : CheckResult)
    (h : cm.cacheGet lid cid = some r) :
    (cm.runCheck cid' log res t now).1.cacheGet lid cid = some r := by
  unfold ChecksManagerState.runCheck
  cases hc : cm.cacheGet log.id cid' with
  | some r0 => exact h
  | none =>
    cases hg : cm.getById cid' with
    | none => exact h
    | some check =>
      dsimp only
      by_cases hke : check.killed = true ∨ ¬check.enabled = true
      · rw [if_pos hke]; exact h
      · rw [if_neg hke]
        show ChecksManagerState.cacheGet _ lid cid = some r
        unfold ChecksManagerState.cacheGet
        have hne : ¬(lid = log.id ∧ cid = cid') := by
          rintro ⟨h1, h2⟩
          subst h1; subst h2
          rw [h] at hc
          exact Option.noConfusion hc
        have hcache2 :
            (if t > killswitchThreshold then
              ChecksManagerState.notifyChange
                { cm.trackExecutionTime cid' t now with
                  checks := updateFirst (fun c => decide (c.id = cid'))
                    (fun c => { c with killed := true, enabled := false })
                    (cm.trackExecutionTime cid' t now).checks }
              else cm.trackExecutionTime cid' t now).resultCache = cm.resultCache := by
          by_cases hks : t > killswitchThreshold <;>
            simp [hks, ChecksManagerState.notifyChange, ChecksManagerState.trackExecutionTime]
        dsimp only
        rw [hcache2, cacheSet_get_ne _ _ _ _ _ _ hne]
        exact h

/-- When `runCheck` reports `result = true`, the returned row is in the
cache afterwards (either it was the cached row, or the execution just
cached it). -/
theorem runCheck_true_cached (cm : ChecksManagerState) (cid : Nat) (log : LogEntry)
    (res : Bool) (t now : Nat)
    (h : (cm.runCheck cid log res t now).2.result = true) :
    (cm.runCheck cid log res t now).1.cacheGet log.id cid =
      some (cm.runCheck cid log res t now).2 := by
  unfold ChecksManagerState.runCheck at h ⊢
  cases hc : cm.cacheGet log.id cid with
  | some r0 => simp [hc]
  | none =>
    rw [hc] at h
    cases hg : cm.getById cid with
    | none => rw [hg] at h; simp at h
    | some check =>
      rw [hg] at h
      dsimp only at h ⊢
      by_cases hke : check.killed = true ∨ ¬check.enabled = true
      · rw [if_pos hke] at h; simp at h
      · rw [if_neg hke] at h ⊢
        dsimp only
        show ChecksManagerState.cacheGet _ log.id cid = _
        unfold ChecksManagerState.cacheGet
        have hcache2 :
            (if t > killswitchThreshold then
              ChecksManagerState.notifyChange
                { cm.trackExecutionTime cid t now with
                  checks := updateFirst (fun c => decide (c.id = cid))
                    (fun c => { c with killed := true, enabled := false })
                    (cm.trackExecutionTime cid t now).checks }
              else cm.trackExecutionTime cid t now).resultCache = cm.resultCache := by
          by_cases hks : t > killswitchThreshold <;>
            simp [hks, ChecksManagerState.notifyChange, ChecksManagerState.trackExecutionTime]
        dsimp only
        rw [hcache2]
        exact cacheSet_get_self cm.resultCache log.id cid _

/-- Cached rows survive the whole filter loop. -/
theorem passesFilterAux_cache_persist (log : LogEntry) (exec : ExecOracle) (now : Nat)
    (en : List Nat) (l : List Nat) :
    ∀ (cm : ChecksManagerState) (lid cid : Nat) (r : CheckResult),
      cm.cacheGet lid cid = some r →
      (passesFilterAux log exec now en cm l).1.cacheGet lid cid = some r := by
  induction l with
  | nil => intro cm lid cid r h; exact h
  | cons c0 rest ih =>
    intro cm lid cid r h
    unfold passesFilterAux
    by_cases hmem : en.contains c0
    · rw [if_pos hmem]
      dsimp only
      by_cases hres : (cm.runCheck c0 log (exec c0 log.id).1 (exec c0 log.id).2 now).2.result
      · rw [if_pos hres]
        exact ih _ _ _ _ (runCheck_cache_persist cm c0 log _ _ now lid cid r h)
      · rw [if_neg hres]
        exact runCheck_cache_persist cm c0 log _ _ now lid cid r h
    · rw [if_neg hmem]
      exact ih _ _ _ _ h

/-- If the filter loop admits the entry, every processed id (one found
in the captured enabled array) has a passing cached row at the end. -/
theorem passesFilterAux_true_cached (log : LogEntry) (exec : ExecOracle) (now : Nat)
    (en : List Nat) (l : List Nat) :
    ∀ (cm cmq : ChecksManagerState),
      passesFilterAux log exec now en cm l = (cmq, true) →
      ∀ cid ∈ l, en.contains cid = true →
        ∃ r : CheckResult, cmq.cacheGet log.id cid = some r ∧ r.result = true := by
  induction l with
  | nil => intro cm cmq h cid hcid; simp at hcid
  | cons c0 rest ih =>
    intro cm cmq h cid hcid hen
    unfold passesFilterAux at h
    rcases List.mem_cons.mp hcid with hcid0 | hcidr
    · subst hcid0
      rw [if_pos hen] at h
      dsimp only at h
      by_cases hres : (cm.runCheck cid log (exec cid log.id).1 (exec cid log.id).2 now).2.result
      · rw [if_pos hres] at h
        refine ⟨(cm.runCheck cid log (exec cid log.id).1 (exec cid log.id).2 now).2, ?_, hres⟩
        have hcached := runCheck_true_cached cm cid log (exec cid log.id).1 (exec cid log.id).2
          now hres
        have := passesFilterAux_cache_persist log exec now en rest _ log.id cid _ hcached
        rw [h] at this
        exact this
      · rw [if_neg hres] at h
        exact absurd (congrArg Prod.snd h) (by simp)
    · by_cases hmem : en.contains c0
      · rw [if_pos hmem] at h
        dsimp only at h
        by_cases hres : (cm.runCheck c0 log (exec c0 log.id).1 (exec c0 log.id).2 now).2.result
        · rw [if_pos hres] at h
          exact ih _ _ h cid hcidr hen
        · rw [if_neg hres] at h
          exact absurd (congrArg Prod.snd h) (by simp)
      · rw [if_neg hmem] at h
        exact ih _ _ h cid hcidr hen

/-- Ids with no match in the captured enabled array are skipped: a
filter consisting only of such ids admits every entry. -/
theorem passesFilterAux_all_skipped (log : LogEntry) (exec : ExecOracle) (now : Nat)
    (en : List Nat) (l : List Nat) (cm : ChecksManagerState)
    (h : ∀ cid ∈ l, en.contains cid = false) :
    passesFilterAux log exec now en cm l = (cm, true) := by
  induction l with
  | nil => rfl
  | cons c0 rest ih =>
    have h0 : en.contains c0 = false := h c0 (List.mem_cons_self c0 rest)
    unfold passesFilterAux
    rw [if_neg (fun hc => by rw [h0] at hc; exact Bool.noConfusion hc)]
    exact ih (fun cid hc => h cid (List.mem_cons_of_mem c0 hc))

/-- C5 (amended): the check-filter stage admits an entry only if every
check id in the required-check filter set that resolves to a currently
enabled, non-killed check evaluates to `passed = true` via `runCheck`
(its passing row sits in the shared result cache afterwards); filter ids
whose check is killed, disabled, or absent are skipped entirely — they
are not required to pass and never block display. -/
theorem C5_filter_requires_enabled_pass (cm : ChecksManagerState) (log : LogEntry)
    (exec : ExecOracle) (now : Nat) :
    (∀ cmq : ChecksManagerState, cm.passesFilter log exec now = (cmq, true) →
      ∀ cid ∈ cm.checksFilter,
        (cm.getEnabled.map (fun c => c.id)).contains cid = true →
        ∃ r : CheckResult, cmq.cacheGet log.id cid = some r ∧ r.result = true) ∧
    ((∀ cid ∈ cm.checksFilter,
        (cm.getEnabled.map (fun c => c.id)).contains cid = false) →
      (cm.passesFilter log exec now).2 = true) := by
  constructor
  · intro cmq h cid hcid hen
    unfold ChecksManagerState.passesFilter at h
    by_cases hempty : cm.checksFilter.length = 0
    · rw [List.length_eq_zero.mp hempty] at hcid
      simp at hcid
    · rw [if_neg hempty] at h
      exact passesFilterAux_true_cached log exec now _ _ _ _ h cid hcid hen
  · intro hall
    unfold ChecksManagerState.passesFilter
    by_cases hempty : cm.checksFilter.length = 0
    · rw [if_pos hempty]
    · rw [if_neg hempty,
        passesFilterAux_all_skipped log exec now _ cm.checksFilter cm hall]

/-- C5 (witness): the amended theorem's skip clause applied to a
registry whose filter contains only the killed check 1: the entry is
admitted. -/
theorem C5_filter_requires_enabled_pass_witness :
    (cmFilterKilled.passesFilter sampleLog (fun _ _ => (false, 0)) 0).2 = true :=
  (C5_filter_requires_enabled_pass cmFilterKilled sampleLog (fun _ _ => (false, 0)) 0).2
    (by decide)

/-- C5 (counterexample): check id 1 is in the required-check filter set,
it is killed, `runCheck` on it evaluates to `passed = false` — yet
`passesFilter` admits the entry, contradicting "admits the entry only if
every check id present in the required-check filter set evaluates to
passed=true via runCheck — including ids whose check is currently killed
or disabled". -/
theorem C5_counterexample :
    1 ∈ cmFilterKilled.checksFilter ∧
    (cmFilterKilled.getById 1).map Check.killed = some true ∧
    (cmFilterKilled.runCheck 1 sampleLog false 0 0).2.result = false ∧
    (cmFilterKilled.passesFilter sampleLog (fun _ _ => (false, 0)) 0).2 = true := by
  decide

/-! ## C9: recording export -/

/-- Inserting one entry yields a permutation of consing it. -/
theorem insertByDate_perm (key : Option String → Nat) (x : LogData) (l : List LogData) :
    List.Perm (insertByDate key x l) (x :: l) := by
  induction l with
  | nil => exact List.Perm.refl _
  | cons y ys ih =>
    unfold insertByDate
    by_cases h : key x.date < key y.date
    · rw [if_pos h]
    · rw [if_neg h]
      exact (List.Perm.cons y ih).trans (List.Perm.swap x y ys)

/-- The insertion-sort fold over an accumulator permutes its inputs. -/
theorem sortFold_perm (key : Option String → Nat) (l : List LogData) :
    ∀ acc : List LogData,
      List.Perm (l.foldl (fun acc x => insertByDate key x acc) acc) (acc ++ l) := by
  induction l with
  | nil => intro acc; simp
  | cons x xs ih =>
    intro acc
    show List.Perm (xs.foldl _ (insertByDate key x acc)) (acc ++ x :: xs)
    refine (ih (insertByDate key x acc)).trans ?_
    refine (List.Perm.append_right xs (insertByDate_perm key x acc)).trans ?_
    exact List.perm_middle.symm

/-- The date sort is a permutation of the recorded entries. -/
theorem sortByDate_perm (key : Option String → Nat) (l : List LogData) :
    List.Perm (sortByDate key l) l := by
  simpa using sortFold_perm key l []

/-- Inserting into a date-sorted list keeps it date-sorted. -/
theorem insertByDate_pairwise (key : Option String → Nat) (x : LogData) (l : List LogData)
    (h : List.Pairwise (fun a b => key a.date ≤ key b.date) l) :
    List.Pairwise (fun a b => key a.date ≤ key b.date) (insertByDate key x l) := by
  induction l with
  | nil => simp [insertByDate]
  | cons y ys ih =>
    rcases List.pairwise_cons.mp h with ⟨hy, hys⟩
    unfold insertByDate
    by_cases hlt : key x.date < key y.date
    · rw [if_pos hlt]
      refine List.pairwise_cons.mpr ⟨?_, h⟩
      intro b hb
      rcases List.mem_cons.mp hb with hb | hb
      · subst hb; exact Nat.le_of_lt hlt
      · exact Nat.le_trans (Nat.le_of_lt hlt) (hy b hb)
    · rw [if_neg hlt]
      refine List.pairwise_cons.mpr ⟨?_, ih hys⟩
      intro b hb
      have hb' : b ∈ x :: ys := (insertByDate_perm key x ys).mem_iff.mp hb
      rcases List.mem_cons.mp hb' with hb' | hb'
      · subst hb'; exact Nat.le_of_not_lt hlt
      · exact hy b hb'

/-- The fold keeps the accumulator date-sorted. -/
theorem sortFold_pairwise (key : Option String → Nat) (l : List LogData) :
    ∀ acc : List LogData,
      List.Pairwise (fun a b => key a.date ≤ key b.date) acc →
      List.Pairwise (fun a b => key a.date ≤ key b.date)
        (l.foldl (fun acc x => insertByDate key x acc) acc) := by
  induction l with
  | nil => intro acc hacc; exact hacc
  | cons x xs ih =>
    intro acc hacc
    exact ih (insertByDate key x acc) (insertByDate_pairwise key x acc hacc)

/-- The date sort produces a date-ascending list. -/
theorem sortByDate_pairwise (key : Option String → Nat) (l : List LogData) :
    List.Pairwise (fun a b => key a.date ≤ key b.date) (sortByDate key l) :=
  sortFold_pairwise key l [] List.Pairwise.nil

/-- C9 (counterexample): at a concrete two-entry recording the export's
download name is `S_E_LoggyLogger_record.log`, not the claimed
`S_E_records.log`; the content also shows the level rendered as the raw
wire type uppercased (`LOG-INFO`, keeping the `log-` prefix) and a blank
line between entries (every line ends in `\n` and lines are joined with
`\n`). -/
theorem C9_counterexample :
    saveRecording sampleRecording sampleDateKey =
      { filename := "S_E_LoggyLogger_record.log"
        content := "2026-01-01 LOG-INFO (a.ts:1): x\n\n2026-01-02 LOG-ERROR (b.ts:2): y\n" } ∧
    (saveRecording sampleRecording sampleDateKey).filename ≠ "S_E_records.log" := by
  decide

/-- C9 (amended): the recording export sorts the recorded entries by
parsed timestamp ascending (a permutation of the recorded entries,
pairwise non-decreasing in the date key), formats one line per entry as
`<date> <TYPE> (<origin>): <space-joined args>` where `<TYPE>` is the
raw wire type uppercased (keeping the `log-` prefix) and each line
carries a trailing newline, joins the lines with `\n`, and offers the
result as a downloadable file named
`<startISO>_<endISO>_LoggyLogger_record.log`. -/
theorem C9_recording_export (rec : Recording) (dateKey : Option String → Nat) :
    (saveRecording rec dateKey).filename =
      rec.startIso ++ "_" ++ rec.endIso ++ "_LoggyLogger_record.log" ∧
    (saveRecording rec dateKey).content =
      String.intercalate "\n" ((sortByDate dateKey rec.recordDatas).map fmtRecordLine) ∧
    List.Perm (sortByDate dateKey rec.recordDatas) rec.recordDatas ∧
    List.Pairwise (fun a b => dateKey a.date ≤ dateKey b.date)
      (sortByDate dateKey rec.recordDatas) :=
  ⟨rfl, rfl, sortByDate_perm dateKey rec.recordDatas, sortByDate_pairwise dateKey rec.recordDatas⟩

/-! ## C2: bounded rolling buffer -/

/-- The log store after `_addLog` is the old store plus the new entry,
head-trimmed to capacity; the filter/render/header stages never touch
the store. -/
theorem addLog_logs (s : AppState) (d : LogData) (o : AddLogOracle) :
    (s.addLog d o).logs =
      trimList s.bufferSize (s.logs ++ [mkLog (s.logIdCounter + 1) d o.nowIso]) := by
  by_cases h : 1000 < o.checksTime <;>
    simp [AppState.addLog, h, AppState.trimBuffer, apply_ite AppState.logs]

/-- `_addLog` advances the id counter by one. -/
theorem addLog_logIdCounter (s : AppState) (d : LogData) (o : AddLogOracle) :
    (s.addLog d o).logIdCounter = s.logIdCounter + 1 := by
  by_cases h : 1000 < o.checksTime <;>
    simp [AppState.addLog, h, AppState.trimBuffer, apply_ite AppState.logIdCounter]

/-- `_addLog` leaves the configured capacity alone. -/
theorem addLog_bufferSize (s : AppState) (d : LogData) (o : AddLogOracle) :
    (s.addLog d o).bufferSize = s.bufferSize := by
  by_cases h : 1000 < o.checksTime <;>
    simp [AppState.addLog, h, AppState.trimBuffer, apply_ite AppState.bufferSize]

/-- The head-eviction loop equals dropping the overflow from the front. -/
theorem trimList_eq_drop (cap : Nat) (l : List LogEntry) :
    trimList cap l = l.drop (l.length - cap) := by
  induction l with
  | nil => simp [trimList]
  | cons x rest ih =>
    unfold trimList
    by_cases h : rest.length + 1 > cap
    · rw [if_pos h, ih]
      have h2 : (x :: rest).length - cap = (rest.length - cap) + 1 := by
        simp only [List.length_cons]
        omega
      rw [h2, List.drop_succ_cons]
    · rw [if_neg h]
      have h2 : (x :: rest).length - cap = 0 := by
        simp only [List.length_cons]
        omega
      rw [h2, List.drop_zero]

/-- Length after trimming. -/
theorem trimList_length (cap : Nat) (l : List LogEntry) :
    (trimList cap l).length = min l.length cap := by
  rw [trimList_eq_drop, List.length_drop]
  omega

/-- Trimming an already-trimmed prefix before appending more entries is
the same as trimming once at the end. -/
theorem trimList_append (cap : Nat) (x y : List LogEntry) :
    trimList cap (trimList cap x ++ y) = trimList cap (x ++ y) := by
  by_cases hx : x.length ≤ cap
  · rw [trimList_eq_drop cap x, Nat.sub_eq_zero_of_le hx, List.drop_zero]
  · simp only [trimList_eq_drop, List.length_append, List.length_drop]
    rw [List.drop_append_eq_append_drop, List.drop_append_eq_append_drop, List.drop_drop]
    simp only [List.length_drop]
    have e1 : x.length - cap + (x.length - (x.length - cap) + y.length - cap) =
        x.length + y.length - cap := by omega
    have e2 : x.length - (x.length - cap) + y.length - cap -
        (x.length - (x.length - cap)) = x.length + y.length - cap - x.length := by omega
    rw [e1, e2]

/-- `mkLogs` makes one entry per event. -/
theorem mkLogs_length (n : Nat) (es : List (LogData × AddLogOracle)) :
    (mkLogs n es).length = es.length := by
  induction es generalizing n with
  | nil => rfl
  | cons e rest ih => simp [mkLogs, ih]

/-- Dropping events before building entries shifts the id window. -/
theorem mkLogs_drop (j n : Nat) (es : List (LogData × AddLogOracle)) :
    (mkLogs n es).drop j = mkLogs (n + j) (es.drop j) := by
  induction es generalizing n j with
  | nil => simp [mkLogs]
  | cons e rest ih =>
    cases j with
    | zero => simp
    | succ j =>
      show (mkLogs (n + 1) rest).drop j = _
      rw [ih j (n + 1)]
      have : n + 1 + j = n + (j + 1) := by omega
      rw [this]
      rfl

/-- Entries built by `mkLogs` have strictly increasing ids, all above
the starting counter. -/
theorem mkLogs_ids (n : Nat) (es : List (LogData × AddLogOracle)) :
    List.Chain' (fun a b : LogEntry => a.id < b.id) (mkLogs n es) ∧
    ∀ x ∈ mkLogs n es, n < x.id := by
  induction es generalizing n with
  | nil => exact ⟨List.chain'_nil, by simp [mkLogs]⟩
  | cons e rest ih =>
    rcases ih (n + 1) with ⟨hc, hm⟩
    constructor
    · refine List.chain'_cons'.mpr ⟨?_, hc⟩
      intro y hy
      have hymem : y ∈ mkLogs (n + 1) rest := List.mem_of_mem_head? hy
      have : (mkLog (n + 1) e.1 e.2.nowIso).id = n + 1 := rfl
      rw [this]
      exact hm y hymem
    · intro x hx
      rcases List.mem_cons.mp hx with hx | hx
      · subst hx; exact Nat.lt_succ_self n
      · exact Nat.lt_of_succ_lt (hm x hx)

/-- Batch ingestion: capacity and counter bookkeeping, and — whenever
the store starts within capacity — the final store is the trimmed
concatenation. -/
theorem appendEvents_fields (es : List (LogData × AddLogOracle)) :
    ∀ s : AppState,
      (appendEvents s es).bufferSize = s.bufferSize ∧
      (appendEvents s es).logIdCounter = s.logIdCounter + es.length ∧
      (s.logs.length ≤ s.bufferSize →
        (appendEvents s es).logs =
          trimList s.bufferSize (s.logs ++ mkLogs s.logIdCounter es)) := by
  induction es with
  | nil =>
    intro s
    refine ⟨rfl, rfl, fun h => ?_⟩
    rw [mkLogs, List.append_nil, trimList_eq_drop, Nat.sub_eq_zero_of_le h, List.drop_zero]
    rfl
  | cons e rest ih =>
    intro s
    have hstep : appendEvents s (e :: rest) = appendEvents (s.addLog e.1 e.2) rest := rfl
    rcases ih (s.addLog e.1 e.2) with ⟨hb, hc, hl⟩
    rw [hstep]
    refine ⟨by rw [hb, addLog_bufferSize], ?_, fun hlen => ?_⟩
    · rw [hc, addLog_logIdCounter]
      simp only [List.length_cons]
      omega
    · have hlen1 : (s.addLog e.1 e.2).logs.length ≤ (s.addLog e.1 e.2).bufferSize := by
        rw [addLog_logs, addLog_bufferSize, trimList_length]
        omega
      rw [hl hlen1, addLog_logs, addLog_bufferSize, addLog_logIdCounter]
      rw [trimList_append]
      show trimList s.bufferSize ((s.logs ++ [mkLog (s.logIdCounter + 1) e.1 e.2.nowIso]) ++
        mkLogs (s.logIdCounter + 1) rest) = _
      rw [List.append_assoc]
      rfl

/-- C2: for every starting state and every batch of incoming events
longer than the configured capacity C, the store afterwards holds
exactly the entries built from the C most-recent events, in arrival
order (the earlier events' entries were evicted), it has exactly C
entries, and the surviving ids are strictly increasing. -/
theorem C2_capacity_window (s : AppState) (es : List (LogData × AddLogOracle))
    (hk : s.bufferSize < es.length) :
    (appendEvents s es).logs =
      mkLogs (s.logIdCounter + (es.length - s.bufferSize))
        (es.drop (es.length - s.bufferSize)) ∧
    (appendEvents s es).logs.length = s.bufferSize ∧
    List.Chain' (fun a b : LogEntry => a.id < b.id) (appendEvents s es).logs := by
  rcases es with _ | ⟨e, rest⟩
  · simp at hk
  · have hstep : appendEvents s (e :: rest) = appendEvents (s.addLog e.1 e.2) rest := rfl
    rcases appendEvents_fields rest (s.addLog e.1 e.2) with ⟨-, -, hl⟩
    have hlen1 : (s.addLog e.1 e.2).logs.length ≤ (s.addLog e.1 e.2).bufferSize := by
      rw [addLog_logs, addLog_bufferSize, trimList_length]
      omega
    have hlogs : (appendEvents s (e :: rest)).logs =
        trimList s.bufferSize (s.logs ++ mkLogs s.logIdCounter (e :: rest)) := by
      rw [hstep, hl hlen1, addLog_logs, addLog_bufferSize, addLog_logIdCounter,
        trimList_append]
      show trimList s.bufferSize ((s.logs ++ [mkLog (s.logIdCounter + 1) e.1 e.2.nowIso]) ++
        mkLogs (s.logIdCounter + 1) rest) = _
      rw [List.append_assoc]
      rfl
    have hfinal : (appendEvents s (e :: rest)).logs =
        mkLogs (s.logIdCounter + ((e :: rest).length - s.bufferSize))
          ((e :: rest).drop ((e :: rest).length - s.bufferSize)) := by
      rw [hlogs, trimList_eq_drop]
      have hlen2 : (s.logs ++ mkLogs s.logIdCounter (e :: rest)).length =
          s.logs.length + (e :: rest).length := by
        rw [List.length_append, mkLogs_length]
      rw [hlen2, List.drop_append_eq_append_drop]
      have h1 : s.logs.length ≤ s.logs.length + (e :: rest).length - s.bufferSize := by
        omega
      rw [List.drop_eq_nil_of_le h1, List.nil_append, mkLogs_drop]
      have h2 : s.logs.length + (e :: rest).length - s.bufferSize - s.logs.length =
          (e :: rest).length - s.bufferSize := by omega
      rw [h2]
    refine ⟨hfinal, ?_, ?_⟩
    · rw [hfinal, mkLogs_length, List.length_drop]
      omega
    · rw [hfinal]
      exact (mkLogs_ids _ _).1

/-- C2 (witness): the theorem applied at capacity 2 with three events:
the store keeps the entries of the last two events (ids 2 and 3), two
entries long, ids strictly increasing. -/
theorem C2_capacity_window_witness :
    (appendEvents smallBufState threeEvents).logs =
      mkLogs (smallBufState.logIdCounter + (threeEvents.length - smallBufState.bufferSize))
        (threeEvents.drop (threeEvents.length - smallBufState.bufferSize)) ∧
    (appendEvents smallBufState threeEvents).logs.length = smallBufState.bufferSize ∧
    List.Chain' (fun a b : LogEntry => a.id < b.id) (appendEvents smallBufState threeEvents).logs :=
  C2_capacity_window smallBufState threeEvents (by decide)

/-! ## C3: cache rows only for stored entries -/

/-- `aset` adds at most the written key. -/
theorem aset_fst_mem {α β : Type} [DecidableEq α] (l : List (α × β)) (k : α) (v : β) :
    ∀ x ∈ (aset l k v).map Prod.fst, x ∈ l.map Prod.fst ∨ x = k := by
  induction l with
  | nil =>
    intro x hx
    right
    have h : (aset ([] : List (α × β)) k v).map Prod.fst = [k] := rfl
    rw [h] at hx
    exact List.mem_singleton.mp hx
  | cons p rest ih =>
    intro x hx
    by_cases h : p.1 = k
    · rw [show aset (p :: rest) k v = (k, v) :: rest from by simp [aset, h],
        List.map_cons] at hx
      rcases List.mem_cons.mp hx with h1 | h1
      · exact Or.inr h1
      · exact Or.inl (by rw [List.map_cons]; exact List.mem_cons_of_mem _ h1)
    · rw [show aset (p :: rest) k v = p :: aset rest k v from by simp [aset, h],
        List.map_cons] at hx
      rcases List.mem_cons.mp hx with h1 | h1
      · exact Or.inl (by rw [List.map_cons, h1]; exact List.mem_cons_self _ _)
      · rcases ih x h1 with h2 | h2
        · exact Or.inl (by rw [List.map_cons]; exact List.mem_cons_of_mem _ h2)
        · exact Or.inr h2

/-- `cacheSet` adds at most the written log id. -/
theorem cacheSet_fst_mem (cache : List (Nat × List (Nat × CheckResult))) (lid cid : Nat)
    (r : CheckResult) :
    ∀ x ∈ (cacheSet cache lid cid r).map Prod.fst, x ∈ cache.map Prod.fst ∨ x = lid := by
  unfold cacheSet
  cases h : alookup cache lid with
  | none => exact aset_fst_mem cache lid _
  | some lc => exact aset_fst_mem cache lid _

/-- Rewriting every bucket in place keeps the key list. -/
theorem keys_map_inner {α β : Type} (l : List (α × β)) (g : α × β → β) :
    (l.map (fun p => (p.1, g p))).map Prod.fst = l.map Prod.fst := by
  induction l with
  | nil => rfl
  | cons p rest ih => simp [ih]

/-- A key absent from the key list has no binding. -/
theorem alookup_eq_none_of_not_mem {α β : Type} [DecidableEq α] (l : List (α × β)) (k : α)
    (h : k ∉ l.map Prod.fst) : alookup l k = none := by
  induction l with
  | nil => rfl
  | cons p rest ih =>
    rw [alookup_cons]
    rw [List.map_cons] at h
    have h1 : p.1 ≠ k := fun he => h (List.mem_cons.mpr (Or.inl he.symm))
    rw [if_neg h1]
    exact ih (fun hm => h (List.mem_cons_of_mem _ hm))

/-- `runCheck` either leaves the cache alone or writes its own
`(log.id, cid)` row. -/
theorem runCheck_resultCache_cases (cm : ChecksManagerState) (cid : Nat) (log : LogEntry)
    (res : Bool) (t now : Nat) :
    (cm.runCheck cid log res t now).1.resultCache = cm.resultCache ∨
    (cm.runCheck cid log res t now).1.resultCache =
      cacheSet cm.resultCache log.id cid ⟨res, t⟩ := by
  unfold ChecksManagerState.runCheck
  cases hc : cm.cacheGet log.id cid with
  | some r0 => exact Or.inl rfl
  | none =>
    cases hg : cm.getById cid with
    | none => exact Or.inl rfl
    | some check =>
      dsimp only
      by_cases hke : check.killed = true ∨ ¬check.enabled = true
      · rw [if_pos hke]; exact Or.inl rfl
      · rw [if_neg hke]
        refine Or.inr ?_
        have hcache2 :
            (if t > killswitchThreshold then
              ChecksManagerState.notifyChange
                { cm.trackExecutionTime cid t now with
                  checks := updateFirst (fun c => decide (c.id = cid))
                    (fun c => { c with killed := true, enabled := false })
                    (cm.trackExecutionTime cid t now).checks }
              else cm.trackExecutionTime cid t now).resultCache = cm.resultCache := by
          by_cases hks : t > killswitchThreshold <;>
            simp [hks, ChecksManagerState.notifyChange, ChecksManagerState.trackExecutionTime]
        dsimp only
        rw [hcache2]

/-- `runCheck` adds cache rows only for the entry it was called on. -/
theorem runCheck_cacheLogIds (cm : ChecksManagerState) (cid : Nat) (log : LogEntry)
    (res : Bool) (t now : Nat) :
    ∀ x ∈ cacheLogIds (cm.runCheck cid log res t now).1,
      x ∈ cacheLogIds cm ∨ x = log.id := by
  intro x hx
  unfold cacheLogIds at hx ⊢
  rcases runCheck_resultCache_cases cm cid log res t now with h | h
  · rw [h] at hx; exact Or.inl hx
  · rw [h] at hx; exact cacheSet_fst_mem cm.resultCache log.id cid _ x hx

/-- The filter loop adds cache rows only for the tested entry. -/
theorem passesFilterAux_cacheLogIds (log : LogEntry) (exec : ExecOracle) (now : Nat)
    (en : List Nat) (l : List Nat) :
    ∀ cm : ChecksManagerState,
      ∀ x ∈ cacheLogIds (passesFilterAux log exec now en cm l).1,
        x ∈ cacheLogIds cm ∨ x = log.id := by
  induction l with
  | nil => intro cm x hx; exact Or.inl hx
  | cons c0 rest ih =>
    intro cm x hx
    unfold passesFilterAux at hx
    by_cases hmem : en.contains c0
    · rw [if_pos hmem] at hx
      dsimp only at hx
      by_cases hres : (cm.runCheck c0 log (exec c0 log.id).1 (exec c0 log.id).2 now).2.result
      · rw [if_pos hres] at hx
        rcases ih _ x hx with h1 | h1
        · exact runCheck_cacheLogIds cm c0 log _ _ now x h1
        · exact Or.inr h1
      · rw [if_neg hres] at hx
        exact runCheck_cacheLogIds cm c0 log _ _ now x hx
    · rw [if_neg hmem] at hx
      exact ih cm x hx

/-- The whole filter pipeline adds cache rows only for the tested
entry. -/
theorem shouldShowLog_cacheLogIds (fc : FilterConfig) (cm : ChecksManagerState)
    (log : LogEntry) (exec : ExecOracle) (regexTest : String → String → Bool) (now : Nat) :
    ∀ x ∈ cacheLogIds (shouldShowLog fc cm log exec regexTest now).1,
      x ∈ cacheLogIds cm ∨ x = log.id := by
  intro x hx
  unfold shouldShowLog at hx
  split at hx
  · exact Or.inl hx
  · split at hx
    · exact Or.inl hx
    · split at hx
      · exact Or.inl hx
      · unfold ChecksManagerState.passesFilter at hx
        split at hx
        · exact Or.inl hx
        · exact passesFilterAux_cacheLogIds log exec now _ _ cm x hx

/-- Rendering one entry's check chips adds cache rows only for that
entry. -/
theorem renderCheckIcons_cacheLogIds (en : List Nat) (log : LogEntry) (exec : ExecOracle)
    (now : Nat) :
    ∀ cm : ChecksManagerState,
      ∀ x ∈ cacheLogIds (renderCheckIcons cm en log exec now),
        x ∈ cacheLogIds cm ∨ x = log.id := by
  induction en with
  | nil => intro cm x hx; exact Or.inl hx
  | cons c0 rest ih =>
    intro cm x hx
    unfold renderCheckIcons at hx
    rw [List.foldl_cons] at hx
    have hx' : x ∈ cacheLogIds
        (renderCheckIcons ((cm.runCheck c0 log (exec c0 log.id).1 (exec c0 log.id).2 now).1)
          rest log exec now) := hx
    rcases ih _ x hx' with h1 | h1
    · exact runCheck_cacheLogIds cm c0 log _ _ now x h1
    · exact Or.inr h1

/-- Re-filtering the store adds cache rows only for entries of the
filtered list. -/
theorem filterVisible_cacheLogIds (fc : FilterConfig) (exec : ExecOracle)
    (regexTest : String → String → Bool) (now : Nat) (ls : List LogEntry) :
    ∀ cm : ChecksManagerState,
      ∀ x ∈ cacheLogIds (filterVisible fc exec regexTest now cm ls).1,
        x ∈ cacheLogIds cm ∨ x ∈ ls.map (fun l => l.id) := by
  induction ls with
  | nil => intro cm x hx; exact Or.inl hx
  | cons l rest ih =>
    intro cm x hx
    unfold filterVisible at hx
    dsimp only at hx
    rcases ih _ x hx with h1 | h1
    · rcases shouldShowLog_cacheLogIds fc cm l exec regexTest now x h1 with h2 | h2
      · exact Or.inl h2
      · exact Or.inr (by rw [List.map_cons, h2]; exact List.mem_cons_self _ _)
    · exact Or.inr (by rw [List.map_cons]; exact List.mem_cons_of_mem _ h1)

/-- The visible list is drawn from the input list. -/
theorem filterVisible_mem (fc : FilterConfig) (exec : ExecOracle)
    (regexTest : String → String → Bool) (now : Nat) (ls : List LogEntry) :
    ∀ cm : ChecksManagerState,
      ∀ l ∈ (filterVisible fc exec regexTest now cm ls).2, l ∈ ls := by
  induction ls with
  | nil =>
    intro cm l hl
    exact absurd hl (by intro h; exact List.not_mem_nil l h)
  | cons a rest ih =>
    intro cm l hl
    unfold filterVisible at hl
    dsimp only at hl
    split at hl
    · rcases List.mem_cons.mp hl with h | h
      · exact List.mem_cons.mpr (Or.inl h)
      · exact List.mem_cons_of_mem _ (ih _ l h)
    · exact List.mem_cons_of_mem _ (ih _ l hl)

/-- The header's inner per-check loop adds rows only for the listed
entries. -/
theorem headerInner_cacheLogIds (cid : Nat) (o : AddLogOracle) (L : List LogEntry) :
    ∀ cm : ChecksManagerState,
      ∀ x ∈ cacheLogIds
        (L.foldl (fun cm l =>
          (cm.runCheck cid l (o.exec cid l.id).1 (o.exec cid l.id).2 o.now).1) cm),
      x ∈ cacheLogIds cm ∨ x ∈ L.map (fun l => l.id) := by
  induction L with
  | nil => intro cm x hx; exact Or.inl hx
  | cons a rest ih =>
    intro cm x hx
    rw [List.foldl_cons] at hx
    rcases ih _ x hx with h1 | h1
    · rcases runCheck_cacheLogIds cm cid a _ _ o.now x h1 with h2 | h2
      · exact Or.inl h2
      · exact Or.inr (by rw [List.map_cons, h2]; exact List.mem_cons_self _ _)
    · exact Or.inr (by rw [List.map_cons]; exact List.mem_cons_of_mem _ h1)

/-- The header's double loop adds rows only for the listed entries. -/
theorem headerOuter_cacheLogIds (o : AddLogOracle) (L : List LogEntry) (C : List Check) :
    ∀ cm : ChecksManagerState,
      ∀ x ∈ cacheLogIds
        (C.foldl (fun cm c =>
          L.foldl (fun cm l =>
            (cm.runCheck c.id l (o.exec c.id l.id).1 (o.exec c.id l.id).2 o.now).1) cm) cm),
      x ∈ cacheLogIds cm ∨ x ∈ L.map (fun l => l.id) := by
  induction C with
  | nil => intro cm x hx; exact Or.inl hx
  | cons c rest ih =>
    intro cm x hx
    rw [List.foldl_cons] at hx
    rcases ih _ x hx with h1 | h1
    · exact headerInner_cacheLogIds c.id o L cm x h1
    · exact Or.inr h1

/-- Refreshing the checks header adds cache rows only for stored
entries. -/
theorem updateChecksResultsHeader_cacheLogIds (fc : FilterConfig) (cm : ChecksManagerState)
    (logs : List LogEntry) (o : AddLogOracle) :
    ∀ x ∈ cacheLogIds (updateChecksResultsHeader fc cm logs o),
      x ∈ cacheLogIds cm ∨ x ∈ logs.map (fun l => l.id) := by
  intro x hx
  unfold updateChecksResultsHeader at hx
  dsimp only at hx
  split at hx
  · exact Or.inl hx
  · rcases headerOuter_cacheLogIds o
        (filterVisible fc o.exec o.regexTest o.now cm logs).2 cm.getEnabled _ x hx with
      h1 | h1
    · rcases filterVisible_cacheLogIds fc o.exec o.regexTest o.now logs cm x h1 with h2 | h2
      · exact Or.inl h2
      · exact Or.inr h2
    · rcases List.mem_map.mp h1 with ⟨l, hl, hxl⟩
      exact Or.inr (List.mem_map.mpr
        ⟨l, filterVisible_mem fc o.exec o.regexTest o.now logs cm l hl, hxl⟩)

/-- Rendering a batch of entries adds cache rows only for those
entries. -/
theorem foldRenderIcons_cacheLogIds (en : List Nat) (exec : ExecOracle) (now : Nat)
    (L : List LogEntry) :
    ∀ cm : ChecksManagerState,
      ∀ x ∈ cacheLogIds (L.foldl (fun cm l => renderCheckIcons cm en l exec now) cm),
        x ∈ cacheLogIds cm ∨ x ∈ L.map (fun l => l.id) := by
  induction L with
  | nil => intro cm x hx; exact Or.inl hx
  | cons a rest ih =>
    intro cm x hx
    rw [List.foldl_cons] at hx
    rcases ih _ x hx with h1 | h1
    · rcases renderCheckIcons_cacheLogIds en a exec now cm x h1 with h2 | h2
      · exact Or.inl h2
      · exact Or.inr (by rw [List.map_cons, h2]; exact List.mem_cons_self _ _)
    · exact Or.inr (by rw [List.map_cons]; exact List.mem_cons_of_mem _ h1)

/-- `cleanCache` leaves only rows for valid log ids. -/
theorem cleanCache_cacheLogIds (cm : ChecksManagerState) (v : List Nat) :
    ∀ x ∈ cacheLogIds (cm.cleanCache v), x ∈ v := by
  intro x hx
  unfold ChecksManagerState.cleanCache cacheLogIds at hx
  dsimp only at hx
  rcases List.mem_map.mp hx with ⟨p, hp, he⟩
  have hc := (List.mem_filter.mp hp).2
  simp at hc
  rw [← he]
  exact hc

/-- A trimmed append keeps its final element whenever the capacity is
positive. -/
theorem mem_trimList_last (cap : Nat) (l : List LogEntry) (a : LogEntry) (h : 1 ≤ cap) :
    a ∈ trimList cap (l ++ [a]) := by
  rw [trimList_eq_drop, List.length_append, List.drop_append_eq_append_drop]
  refine List.mem_append.mpr (Or.inr ?_)
  have he : l.length + [a].length - cap - l.length = 0 := by
    simp only [List.length_singleton]
    omega
  rw [he, List.drop_zero]
  exact List.mem_singleton.mpr rfl

/-- The isNew sweep does not change the stored ids. -/
theorem clearIsNew_ids (vis logs : List LogEntry) :
    (clearIsNew vis logs).map (fun l => l.id) = logs.map (fun l => l.id) := by
  unfold clearIsNew
  rw [List.map_map]
  refine List.map_congr_left ?_
  intro a _
  show (if vis.any (fun f => decide (f.id = a.id)) then _ else a).id = a.id
  split <;> rfl

/-- Displaying the new entry adds cache rows only for it. -/
theorem addLogDisplayCm_cacheLogIds (fc : FilterConfig) (cm : ChecksManagerState)
    (log : LogEntry) (o : AddLogOracle) :
    ∀ x ∈ cacheLogIds (addLogDisplayCm fc cm log o).1,
      x ∈ cacheLogIds cm ∨ x = log.id := by
  intro x hx
  unfold addLogDisplayCm at hx
  dsimp only at hx
  split at hx
  · rcases renderCheckIcons_cacheLogIds _ log o.exec o.now _ x hx with h1 | h1
    · exact shouldShowLog_cacheLogIds fc cm log o.exec o.regexTest o.now x h1
    · exact Or.inr h1
  · exact shouldShowLog_cacheLogIds fc cm log o.exec o.regexTest o.now x hx

/-- The checks state `_addLog` ends with: the checks header refresh,
applied to the display stage's state, over the trimmed store. -/
theorem addLog_cm (s : AppState) (d : LogData) (o : AddLogOracle) :
    (s.addLog d o).cm =
      updateChecksResultsHeader s.fc
        (addLogDisplayCm s.fc
          (s.cm.cleanCache
            ((trimList s.bufferSize
              (s.logs ++ [mkLog (s.logIdCounter + 1) d o.nowIso])).map (fun l => l.id)))
          (mkLog (s.logIdCounter + 1) d o.nowIso) o).1
        (trimList s.bufferSize (s.logs ++ [mkLog (s.logIdCounter + 1) d o.nowIso])) o := by
  by_cases h : 1000 < o.checksTime <;>
    simp [AppState.addLog, h, AppState.trimBuffer, apply_ite AppState.cm]

/-- Ingesting one event leaves only cache rows for stored entries,
regardless of the previous cache (the trim stage's `cleanCache` resets
the invariant, and later stages only touch the surviving new entry). -/
theorem addLog_cacheWF (s : AppState) (d : LogData) (o : AddLogOracle)
    (hbuf : 1 ≤ s.bufferSize) : cacheWF (s.addLog d o) := by
  intro p hp
  have hx : p.1 ∈ cacheLogIds (s.addLog d o).cm := List.mem_map_of_mem Prod.fst hp
  show p.1 ∈ (s.addLog d o).logs.map (fun l => l.id)
  rw [addLog_logs, addLog_cm] at *
  rcases updateChecksResultsHeader_cacheLogIds _ _ _ _ _ hx with h1 | h1
  · rcases addLogDisplayCm_cacheLogIds _ _ _ _ _ h1 with h2 | h2
    · exact cleanCache_cacheLogIds _ _ _ h2
    · rw [h2]
      exact List.mem_map.mpr
        ⟨mkLog (s.logIdCounter + 1) d o.nowIso,
         mem_trimList_last s.bufferSize s.logs _ hbuf, rfl⟩
  · exact h1

/-- Rebuilding the view preserves the cache invariant. -/
theorem fullRender_cacheWF (s : AppState) (o : AddLogOracle) (h : cacheWF s) :
    cacheWF (s.fullRender o) := by
  intro p hp
  have hx : p.1 ∈ cacheLogIds (s.fullRender o).cm := List.mem_map_of_mem Prod.fst hp
  have hlogs : (s.fullRender o).logs =
      clearIsNew (filterVisible s.fc o.exec o.regexTest o.now s.cm s.logs).2 s.logs := rfl
  have hcm : (s.fullRender o).cm =
      updateChecksResultsHeader s.fc
        ((filterVisible s.fc o.exec o.regexTest o.now s.cm s.logs).2.foldl
          (fun cm l => renderCheckIcons cm
            ((filterVisible s.fc o.exec o.regexTest o.now s.cm s.logs).1.getEnabled.map
              (fun c => c.id)) l o.exec o.now)
          (filterVisible s.fc o.exec o.regexTest o.now s.cm s.logs).1)
        (clearIsNew (filterVisible s.fc o.exec o.regexTest o.now s.cm s.logs).2 s.logs) o := rfl
  show p.1 ∈ (s.fullRender o).logs.map (fun l => l.id)
  rw [hlogs, clearIsNew_ids]
  rw [hcm] at hx
  rcases updateChecksResultsHeader_cacheLogIds _ _ _ _ _ hx with h1 | h1
  · rcases foldRenderIcons_cacheLogIds _ _ _ _ _ _ h1 with h2 | h2
    · rcases filterVisible_cacheLogIds s.fc o.exec o.regexTest o.now s.logs s.cm _ h2 with
        h3 | h3
      · rcases List.mem_map.mp h3 with ⟨q, hq, he⟩
        rw [← he]
        exact h q hq
      · exact h3
    · rcases List.mem_map.mp h2 with ⟨l, hl, he⟩
      rw [← he]
      exact List.mem_map.mpr
        ⟨l, filterVisible_mem s.fc o.exec o.regexTest o.now s.logs s.cm l hl, rfl⟩
  · rw [clearIsNew_ids] at h1
    exact h1

/-- Opening a stored entry's detail view preserves the cache
invariant. -/
theorem openLogDetail_cacheWF (s : AppState) (log : LogEntry) (o : AddLogOracle)
    (hmem : log ∈ s.logs) (h : cacheWF s) : cacheWF (s.openLogDetail log o) := by
  intro p hp
  have hx : p.1 ∈ cacheLogIds (s.openLogDetail log o).cm := List.mem_map_of_mem Prod.fst hp
  show p.1 ∈ (s.openLogDetail log o).logs.map (fun l => l.id)
  have hlogs : (s.openLogDetail log o).logs = s.logs := rfl
  rw [hlogs]
  rcases renderCheckIcons_cacheLogIds _ log o.exec o.now _ _ hx with h1 | h1
  · rcases List.mem_map.mp h1 with ⟨q, hq, he⟩
    rw [← he]
    exact h q hq
  · rw [h1]
    exact List.mem_map.mpr ⟨log, hmem, rfl⟩

/-- Shrinking or growing the buffer re-enforces the invariant through
the trim stage. -/
theorem setBufferSize_cacheWF (s : AppState) (i : Fin 6) : cacheWF (s.setBufferSize i) := by
  intro p hp
  have hx : p.1 ∈ cacheLogIds (s.setBufferSize i).cm := List.mem_map_of_mem Prod.fst hp
  exact cleanCache_cacheLogIds _ _ _ hx

/-- `add` never touches the result cache. -/
theorem add_resultCache (cm : ChecksManagerState) (n c : String) (a b : Bool) (t : Nat) :
    (cm.add n c a b t).1.resultCache = cm.resultCache := by
  unfold ChecksManagerState.add
  split
  · rfl
  · split
    · rfl
    · split
      · rfl
      · split
        · rfl
        · rfl

/-- `update` purges per-check rows but keeps the per-entry buckets. -/
theorem update_cacheLogIds (cm : ChecksManagerState) (id : Nat) (n c : String)
    (a b : Bool) (t : Nat) :
    cacheLogIds (cm.update id n c a b t).1 = cacheLogIds cm := by
  unfold ChecksManagerState.update
  split
  · rfl
  · split
    · rfl
    · split
      · rfl
      · split
        · rfl
        · exact keys_map_inner cm.resultCache _

/-- `remove` purges per-check rows but keeps the per-entry buckets. -/
theorem remove_cacheLogIds (cm : ChecksManagerState) (id : Nat) :
    cacheLogIds (cm.remove id) = cacheLogIds cm := by
  unfold ChecksManagerState.remove
  split
  · exact keys_map_inner cm.resultCache _
  · rfl

/-- `setEnabled` never touches the result cache. -/
theorem setEnabled_resultCache (cm : ChecksManagerState) (id : Nat) (b : Bool) :
    (cm.setEnabled id b).resultCache = cm.resultCache := by
  unfold ChecksManagerState.setEnabled
  split
  · rfl
  · rfl

/-- `toggleFilter` never touches the result cache. -/
theorem toggleFilter_resultCache (cm : ChecksManagerState) (id : Nat) :
    (cm.toggleFilter id).resultCache = cm.resultCache := rfl

/-- `disableAll` never touches the result cache. -/
theorem disableAll_resultCache (cm : ChecksManagerState) :
    cm.disableAll.resultCache = cm.resultCache := rfl

/-- `enableAll` never touches the result cache. -/
theorem enableAll_resultCache (cm : ChecksManagerState) :
    cm.enableAll.resultCache = cm.resultCache := rfl

/-- Every capacity the buffer slider can select is positive. -/
theorem setBufferSize_pos (s : AppState) (i : Fin 6) : 1 ≤ (s.setBufferSize i).bufferSize := by
  have hall : ∀ j : Fin 6, 1 ≤ bufferPresets.get ⟨j, by simp [bufferPresets]⟩ := by decide
  exact hall i

/-- Every dashboard transition other than clear-all keeps the capacity
positive and every result-cache bucket attached to a stored entry. -/
theorem step_preserves_good :
    ∀ {s t : AppState}, Step false s t → 1 ≤ s.bufferSize → cacheWF s →
      1 ≤ t.bufferSize ∧ cacheWF t
  | _, _, .receive false s d o, ih1, _ =>
    ⟨by rw [addLog_bufferSize]; exact ih1, addLog_cacheWF s d o ih1⟩
  | _, _, .rebuild false s o, ih1, ihw => ⟨ih1, fullRender_cacheWF s o ihw⟩
  | _, _, .detail false s log o hmem, ih1, ihw => ⟨ih1, openLogDetail_cacheWF s log o hmem ihw⟩
  | _, _, .configChange false s fc o, ih1, ihw => ⟨ih1, fullRender_cacheWF { s with fc := fc } o ihw⟩
  | _, _, .buffer false s i, _, _ => ⟨setBufferSize_pos s i, setBufferSize_cacheWF s i⟩
  | _, _, .addCheck false s n c cOk rOk t, ih1, ihw =>
    ⟨ih1, fun p hp => ihw p (by
      have hp2 : p ∈ (s.cm.add n c cOk rOk t).1.resultCache := hp
      rw [add_resultCache] at hp2
      exact hp2)⟩
  | _, _, .updateCheck false s id n c cOk rOk t, ih1, ihw =>
    ⟨ih1, fun p hp => by
      have hmem2 : p.1 ∈ cacheLogIds (s.cm.update id n c cOk rOk t).1 :=
        List.mem_map_of_mem Prod.fst hp
      rw [update_cacheLogIds] at hmem2
      rcases List.mem_map.mp hmem2 with ⟨q, hq, he⟩
      show p.1 ∈ s.logs.map (fun l => l.id)
      rw [← he]
      exact ihw q hq⟩
  | _, _, .removeCheck false s id, ih1, ihw =>
    ⟨ih1, fun p hp => by
      have hmem2 : p.1 ∈ cacheLogIds (s.cm.remove id) := List.mem_map_of_mem Prod.fst hp
      rw [remove_cacheLogIds] at hmem2
      rcases List.mem_map.mp hmem2 with ⟨q, hq, he⟩
      show p.1 ∈ s.logs.map (fun l => l.id)
      rw [← he]
      exact ihw q hq⟩
  | _, _, .toggleCheck false s id b, ih1, ihw =>
    ⟨ih1, fun p hp => ihw p (by
      have hp2 : p ∈ (s.cm.setEnabled id b).resultCache := hp
      rw [setEnabled_resultCache] at hp2
      exact hp2)⟩
  | _, _, .toggleChecksFilter false s id, ih1, ihw =>
    ⟨ih1, fun p hp => ihw p (by
      have hp2 : p ∈ (s.cm.toggleFilter id).resultCache := hp
      rw [toggleFilter_resultCache] at hp2
      exact hp2)⟩
  | _, _, .disableAllChecks false s, ih1, ihw =>
    ⟨ih1, fun p hp => ihw p (by
      have hp2 : p ∈ s.cm.disableAll.resultCache := hp
      rw [disableAll_resultCache] at hp2
      exact hp2)⟩
  | _, _, .enableAllChecks false s, ih1, ihw =>
    ⟨ih1, fun p hp => ihw p (by
      have hp2 : p ∈ s.cm.enableAll.resultCache := hp
      rw [enableAll_resultCache] at hp2
      exact hp2)⟩

/-- Along every clear-free run, the buffer capacity stays positive and
every result-cache bucket belongs to a stored entry. -/
theorem reachableNC_good (s : AppState) (h : Reachable false s) :
    1 ≤ s.bufferSize ∧ cacheWF s := by
  induction h with
  | init =>
    refine ⟨by show 1 ≤ 1000; omega, fun p hp => ?_⟩
    exact absurd hp (by intro hq; exact List.not_mem_nil p hq)
  | step h1 h2 ih => exact step_preserves_good h2 ih.1 ih.2

/-- C3 (counterexample): the invariant "every cache row belongs to a
stored entry" fails on a clear-reachable state.  The concrete run —
register a check, receive one visible event (its result is cached for
entry 1), press clear — reaches `sCleared`, whose store is empty and id
counter reset while the bucket for entry 1 survives; `runCheck` on a
fresh entry that re-uses id 1 returns the pre-clear entry's cached row
`{result: true, time: 1}` instead of evaluating. -/
theorem C3_counterexample :
    ¬ (∀ s : AppState, Reachable true s → cacheWF s) ∧
    Reachable true sCleared ∧
    sCleared.logs = [] ∧
    sCleared.logIdCounter = 0 ∧
    cacheLogIds sCleared.cm = [1] ∧
    (sCleared.cm.runCheck 1 sampleLog false 0 0).2 = ⟨true, 1⟩ := by
  have hreach : Reachable true sCleared :=
    Reachable.step
      (Reachable.step
        (Reachable.step (Reachable.init true)
          (Step.addCheck true AppState.init "c1" "return true" true true 0))
        (Step.receive true sWithCheck sampleData quietOracle))
      (Step.clearAll sOneLog quietOracle)
  refine ⟨fun hall => absurd (hall sCleared hreach) (by decide), hreach, rfl, rfl,
    by decide, by decide⟩

/-- C3 (amended): in every state reachable without `clear()`, evicting
a log entry purges every `(entryId, checkId)` result-cache row for that
entry — each cache bucket belongs to a stored entry — and `runCheck`
never finds (hence never returns) a cached row for an entry id absent
from the log store.  `clear()` itself empties the store and resets the
id counter to 0 but does not purge the result cache, so the invariant
does not extend to clear-reachable states. -/
theorem C3_no_stale_cache_without_clear (s : AppState) (h : Reachable false s) :
    cacheWF s ∧
    (∀ (log : LogEntry) (cid : Nat), log.id ∉ s.logs.map (fun l => l.id) →
      s.cm.cacheGet log.id cid = none) := by
  have hwf := (reachableNC_good s h).2
  refine ⟨hwf, fun log cid hab => ?_⟩
  have hnot : log.id ∉ s.cm.resultCache.map Prod.fst := by
    intro hmem
    rcases List.mem_map.mp hmem with ⟨q, hq, he⟩
    exact hab (by rw [← he]; exact hwf q hq)
  unfold ChecksManagerState.cacheGet
  rw [alookup_eq_none_of_not_mem _ _ hnot]
  rfl

/-- C3 (witness): the amended theorem applied to the clear-free run
that registers a check and receives one event. -/
theorem C3_no_stale_cache_without_clear_witness : cacheWF sOneLog :=
  (C3_no_stale_cache_without_clear sOneLog
    (Reachable.step
      (Reachable.step (Reachable.init false)
        (Step.addCheck false AppState.init "c1" "return true" true true 0))
      (Step.receive false sWithCheck sampleData quietOracle))).1

end LoggyLogger
